import Mathlib

/-!
# Verification of the bettrbot settlement core

A shallow embedding, in Lean 4, of the settlement core of the bettrbot
repository: the distributed lock store (`src/utils/locks.ts`), the deposit
reconciliation pipeline (`pollWalletDeposits`), the P2P round settlement and
refund engine (`src/services/settlement.ts`), and the pooled house-bet
settlement engine (`settleHouseBetWithPool`, `determineHouseBetResult`).

Conventions of the embedding:
* lamport amounts (TypeScript `bigint`) are `Nat` where the source only ever
  holds non-negative values, and `Int` where tracked balances are decremented
  and the absence of overdraw is part of what is being verified;
* game scores are `Int` and betting lines (`number`, an IEEE double such as
  `-3.5`) are `Rat`: every line/score arithmetic operation performed by the
  source (adding a small dyadic rational to a small integer, comparisons) is
  exact in double precision, so `Rat` models it faithfully;
* the persistent store is explicit state (lists of rows); a Prisma unique
  constraint is a membership test, and the `P2002` conflict the source
  catches is the corresponding `if` branch;
* `sendSol` and other fallible chain calls are driven by explicit oracles
  (`Bool`-valued environments) so that both the success and the thrown-error
  paths of the source are represented.
-/

/-! ## Lock store (`src/utils/locks.ts`)

One row of the `resourceLock` table per lease; `resourceId` carries a unique
constraint.  Times are epoch milliseconds. -/

/-- A persisted lock lease (one `resourceLock` row): `resourceId` (unique),
`lockedBy` (the acquiring process's `INSTANCE_ID`), `expiresAt`. -/
structure Lease where
  resourceId : String
  lockedBy : String
  expiresAt : Nat
deriving Repr, DecidableEq

/-- The lock store: the list of `resourceLock` rows. -/
structure LockState where
  leases : List Lease
deriving Repr, DecidableEq

/-- `prisma.resourceLock.deleteMany({ where: { expiresAt: { lt: new Date() } } })`:
lazily reap every lease whose expiry has passed. -/
def reapExpired (now : Nat) (s : LockState) : LockState :=
  ⟨s.leases.filter (fun l => !decide (l.expiresAt < now))⟩

/-- `acquireLock(resourceId, timeoutMs)`: delete expired leases, then
`resourceLock.create`; the unique constraint on `resourceId` makes the insert
fail with `P2002` when a lease for the resource is still present, which the
source catches and turns into `false`. -/
def acquireLock (now : Nat) (instanceId : String) (s : LockState)
    (resourceId : String) (timeoutMs : Nat) : LockState × Bool :=
  let expiresAt := now + timeoutMs
  let cleaned := reapExpired now s
  if cleaned.leases.any (fun l => l.resourceId == resourceId) then
    (cleaned, false)
  else
    (⟨{ resourceId := resourceId, lockedBy := instanceId, expiresAt := expiresAt } :: cleaned.leases⟩,
      true)

/-- `releaseLock(resourceId)`:
`resourceLock.deleteMany({ where: { resourceId, lockedBy: INSTANCE_ID } })` —
only leases held by this instance are deleted. -/
def releaseLock (instanceId : String) (s : LockState) (resourceId : String) : LockState :=
  ⟨s.leases.filter (fun l => !(l.resourceId == resourceId && l.lockedBy == instanceId))⟩

/-- `withLock(resourceId, fn, timeoutMs)` over an abstract world state `W`:
acquire; on failure return `null` (here `Except.ok none`) without running
`fn`; on success run `fn` and release in a `finally`, so the release happens
on the normal return and on the thrown-error path alike, and the error is
re-propagated after the release. -/
def withLock (now : Nat) (instanceId : String) {W α : Type}
    (s : LockState) (w : W) (resourceId : String)
    (fn : W → W × Except Unit α) (timeoutMs : Nat) :
    LockState × W × Except Unit (Option α) :=
  let acq := acquireLock now instanceId s resourceId timeoutMs
  if acq.2 then
    let ran := fn w
    let released := releaseLock instanceId acq.1 resourceId
    match ran.2 with
    | .ok a => (released, ran.1, .ok (some a))
    | .error e => (released, ran.1, .error e)
  else
    (acq.1, w, .ok none)

/-- `withLock` as observed at the TypeScript type `Promise<T | null>` when the
body's own result type is itself nullable: JavaScript has a single `null`, so
the skipped sentinel and a body returning `null` produce the same runtime
value.  The value universe is `Option β` with `none` playing `null`. -/
def withLockNullable (now : Nat) (instanceId : String) {W β : Type}
    (s : LockState) (w : W) (resourceId : String)
    (fn : W → W × Option β) (timeoutMs : Nat) :
    LockState × W × Option β :=
  let acq := acquireLock now instanceId s resourceId timeoutMs
  if acq.2 then
    let ran := fn w
    (releaseLock instanceId acq.1 resourceId, ran.1, ran.2)
  else
    (acq.1, w, none)

/-! ## Idempotency ledger and deposit reconciliation
(`src/utils/locks.ts`, `pollWalletDeposits` in the scheduler) -/

/-- A wager row, as read by the deposit pipeline: `amount = 0` with
`txSignature = null` marks a pending wager awaiting attribution. -/
structure PWager where
  id : Nat
  amount : Nat
  txSignature : Option String
deriving Repr, DecidableEq

/-- A `processedTransaction` row: `signature` carries a unique constraint. -/
structure PTx where
  signature : String
  amount : Nat
deriving Repr, DecidableEq

/-- The slice of the store the deposit pipeline touches for one round: its
wagers, its `totalPot`, and the idempotency ledger. -/
structure DepositState where
  wagers : List PWager
  totalPot : Nat
  processed : List PTx
deriving Repr, DecidableEq

/-- `isTransactionProcessed(signature)`: ledger membership. -/
def isTransactionProcessed (s : DepositState) (sig : String) : Bool :=
  s.processed.any (fun t => t.signature == sig)

/-- `markTransactionProcessed(signature, amount, ...)`: insert into the
ledger; the unique constraint turns a duplicate into a caught `P2002`, and
the function returns `false` instead of erroring. -/
def markTransactionProcessed (s : DepositState) (sig : String) (amount : Nat) :
    DepositState × Bool :=
  if isTransactionProcessed s sig then
    (s, false)
  else
    ({ s with processed := s.processed ++ [⟨sig, amount⟩] }, true)

/-- Outcome of processing one chain transaction for a round. -/
inductive DepositOutcome
  /-- the deposit was attributed to the pending wager with this id -/
  | linked (wagerId : Nat)
  /-- no pending wager existed; pot updated and anomaly logged -/
  | noPendingWager
  /-- the ledger insert hit its unique constraint (`P2002`): another
  processor already handled this signature; treated as done, not an error -/
  | alreadyProcessed
  /-- the upfront `isTransactionProcessed` check short-circuited -/
  | skippedAlreadyProcessed
  /-- deposit below `MIN_BET_LAMPORTS`; ledgered so it is not re-checked -/
  | tooSmall
deriving Repr, DecidableEq

/-- `MIN_BET_LAMPORTS = MIN_BET_SOL * LAMPORTS_PER_SOL`; the double product
`0.01 * 1e9` evaluates to exactly `10000000`. -/
def MIN_BET_LAMPORTS : Nat := 10000000

/-- The `prisma.$transaction` body of `pollWalletDeposits`: find the first
pending wager, set its amount and tx reference, increment the round's
`totalPot`, and append the ledger row — all or nothing.  The ledger's unique
constraint aborts (and rolls back) the whole transaction when the signature
is already present; the source catches that `P2002` and treats the
signature as already handled. -/
def depositTxCore (s : DepositState) (sig : String) (cappedAmount : Nat) :
    DepositState × DepositOutcome :=
  if isTransactionProcessed s sig then
    (s, .alreadyProcessed)
  else
    match s.wagers.find? (fun w => w.amount == 0 && w.txSignature == none) with
    | some pw =>
      ({ wagers := s.wagers.map (fun w =>
            if w.id == pw.id then { w with amount := cappedAmount, txSignature := some sig } else w),
         totalPot := s.totalPot + cappedAmount,
         processed := s.processed ++ [⟨sig, cappedAmount⟩] },
       .linked pw.id)
    | none => (s, .noPendingWager)

/-- One poll-path pass over a single observed transaction
(`pollWalletDeposits`): skip if already ledgered; ledger-and-skip dust;
cap at the max P2P bet; then run the atomic attribution transaction, with
the unattributed-deposit fallback (pot still credited with the raw amount,
ledger row written) when no pending wager exists.  `maxP2pLamports` is
`BigInt(MAX_P2P_BET_SOL * LAMPORTS_PER_SOL)` (the constant lives in a
`constants.ts` revision outside this snapshot, so it is a parameter). -/
def processRoundDeposit (maxP2pLamports : Nat) (s : DepositState) (sig : String)
    (depositAmount : Nat) : DepositState × DepositOutcome :=
  if isTransactionProcessed s sig then
    (s, .skippedAlreadyProcessed)
  else if depositAmount < MIN_BET_LAMPORTS then
    ((markTransactionProcessed s sig depositAmount).1, .tooSmall)
  else
    let cappedAmount := if depositAmount > maxP2pLamports then maxP2pLamports else depositAmount
    match depositTxCore s sig cappedAmount with
    | (s1, .noPendingWager) =>
      ({ wagers := s1.wagers, totalPot := s1.totalPot + depositAmount,
         processed := s1.processed ++ [⟨sig, depositAmount⟩] },
       .noPendingWager)
    | r => r

/-! ## P2P round settlement (`src/services/settlement.ts`) -/

/-- `Round.status` values. -/
inductive RoundStatus
  | OPEN
  | LOCKED
  | SETTLED
  | CANCELLED
deriving Repr, DecidableEq

/-- A wager as `settleRound`/`refundRound` see it. -/
structure SettleWager where
  id : Nat
  teamPick : String
  amount : Nat
  paidOut : Bool
  userAddress : Option String
deriving Repr, DecidableEq

/-- The slice of a round the settlement engine reads: status (re-checked
inside the per-round lock), the live escrow balance, and the wagers. -/
structure RoundState where
  status : RoundStatus
  balance : Nat
  wagers : List SettleWager
deriving Repr, DecidableEq

/-- Outcomes of the `sendSol` calls a settlement pass can make: the fee
transfer, the whole-balance treasury transfer of the no-winner path, and the
per-wager payout transfers. -/
structure SendEnv where
  feeSendOk : Bool
  treasurySendOk : Bool
  payoutSendOk : Nat → Bool

/-- Destination of an executed transfer. -/
inductive Dest
  | treasury
  | user (wagerId : Nat)
deriving Repr, DecidableEq

/-- An executed on-chain transfer. -/
structure Send where
  dest : Dest
  amount : Nat
deriving Repr, DecidableEq

/-- What a `settleRound` invocation did. -/
structure SettleResult where
  status : RoundStatus
  sends : List Send
  attempted : List (Nat × Nat)
  paidIds : List Nat
  threw : Bool
deriving Repr, DecidableEq

/-- `Math.floor(FEE_PERCENTAGE * 10000)` with `FEE_PERCENTAGE = 0.01`: the
double product rounds to exactly `100`. -/
def FEE_BASIS_POINTS : Nat := 100

/-- `const fee = (balance * BigInt(Math.floor(FEE_PERCENTAGE * 10000))) / BigInt(10000)`
(BigInt division truncates; operands are non-negative, so it floors). -/
def roundFee (balance : Nat) : Nat := balance * FEE_BASIS_POINTS / 10000

/-- `const payout = (wager.amount * remainingPot) / totalWinningAmount`. -/
def proportionalPayout (amount remainingPot totalWinningAmount : Nat) : Nat :=
  amount * remainingPot / totalWinningAmount

/-- The payout loop of `settleRound` over the winning wagers: skip a winner
with no payout address; skip a payout that does not cover the transaction
cost (`payout <= 5000`); otherwise attempt the send — on success set the
wager's `paidOut`/`payoutTx`, on a thrown send record the failure in
`payoutsSuccessful` and continue with the remaining winners.  Returns
(attempted sends, successful sends, ids marked paid, `payoutsSuccessful`). -/
def payoutLoop (env : SendEnv) (remainingPot totalWinningAmount : Nat) :
    List SettleWager → List (Nat × Nat) × List Send × List Nat × Bool
  | [] => ([], [], [], true)
  | w :: ws =>
    let rest := payoutLoop env remainingPot totalWinningAmount ws
    if w.userAddress = none then rest
    else
      let payout := proportionalPayout w.amount remainingPot totalWinningAmount
      if payout ≤ 5000 then rest
      else if env.payoutSendOk w.id then
        ((w.id, payout) :: rest.1, ⟨.user w.id, payout⟩ :: rest.2.1, w.id :: rest.2.2.1, rest.2.2.2)
      else
        ((w.id, payout) :: rest.1, rest.2.1, rest.2.2.1, false)

/-- `settleRound` (the lock-aware revision): under the per-round lock,
re-check the status (skip unless still `LOCKED`); an empty wallet is marked
`SETTLED` outright; otherwise compute the fee and remaining pot, and either
(no winners) send the whole balance to the treasury — an uncaught send
failure propagates and leaves the status untouched — or send the fee (caught
on failure) and run the payout loop, marking the round `SETTLED` only when
`payoutsSuccessful` survived every payout attempt. -/
def settleRound (env : SendEnv) (r : RoundState) (winner : String) : SettleResult :=
  if r.status ≠ RoundStatus.LOCKED then
    { status := r.status, sends := [], attempted := [], paidIds := [], threw := false }
  else if r.balance = 0 then
    { status := .SETTLED, sends := [], attempted := [], paidIds := [], threw := false }
  else
    let fee := roundFee r.balance
    let remainingPot := r.balance - fee
    let winningWagers := r.wagers.filter (fun w => w.teamPick == winner)
    let totalWinningAmount := (winningWagers.map (fun w => w.amount)).sum
    if winningWagers.isEmpty || totalWinningAmount = 0 then
      if 0 < fee then
        if env.treasurySendOk then
          { status := .SETTLED, sends := [⟨.treasury, r.balance⟩], attempted := [],
            paidIds := [], threw := false }
        else
          { status := r.status, sends := [], attempted := [], paidIds := [], threw := true }
      else
        { status := .SETTLED, sends := [], attempted := [], paidIds := [], threw := false }
    else
      let feeSends : List Send :=
        if 5000 < fee then (if env.feeSendOk then [⟨.treasury, fee⟩] else []) else []
      let loop := payoutLoop env remainingPot totalWinningAmount winningWagers
      { status := if loop.2.2.2 then .SETTLED else r.status,
        sends := feeSends ++ loop.2.1,
        attempted := loop.1,
        paidIds := loop.2.2.1,
        threw := false }

/-- What a `refundRound` invocation did. -/
structure RefundResult where
  status : RoundStatus
  sends : List (Nat × Nat)
  paidIds : List Nat
deriving Repr, DecidableEq

/-- The refund loop of `refundRound`: skip a wager that is already
`paidOut`, has no payout address, or whose `amount <= 5000`; otherwise send
back exactly the wager's amount (a thrown send is caught and the loop
continues), marking the wager paid on success. -/
def refundLoop (env : Nat → Bool) :
    List SettleWager → List (Nat × Nat) × List Nat
  | [] => ([], [])
  | w :: ws =>
    let rest := refundLoop env ws
    if w.paidOut || w.userAddress == none || w.amount ≤ 5000 then rest
    else if env w.id then ((w.id, w.amount) :: rest.1, w.id :: rest.2)
    else rest

/-- `refundRound`: under the same `round:settle:` lock as settlement,
re-check the status (skip when already `SETTLED` or `CANCELLED`); run the
refund loop; then mark the round `CANCELLED` unconditionally. -/
def refundRound (env : Nat → Bool) (r : RoundState) : RefundResult :=
  if r.status = RoundStatus.SETTLED ∨ r.status = RoundStatus.CANCELLED then
    { status := r.status, sends := [], paidIds := [] }
  else
    let loop := refundLoop env r.wagers
    { status := .CANCELLED, sends := loop.1, paidIds := loop.2 }

/-- `const winningWagers = round.wagers.filter((w) => w.teamPick === winner)`. -/
def winningWagersOf (r : RoundState) (winner : String) : List SettleWager :=
  r.wagers.filter (fun w => w.teamPick == winner)

/-- `const totalWinningAmount = winningWagers.reduce((sum, w) => sum + w.amount, 0n)`. -/
def totalWinningOf (r : RoundState) (winner : String) : Nat :=
  ((winningWagersOf r winner).map (fun w => w.amount)).sum

/-- `const remainingPot = balance - fee`. -/
def remainingPotOf (r : RoundState) : Nat :=
  r.balance - roundFee r.balance

/-- The payout value the settlement loop computes for each winning wager
(the `const payout = ...` line), paired with the wager id; losing wagers do
not appear — they receive nothing. -/
def computedPayoutsOf (r : RoundState) (winner : String) : List (Nat × Nat) :=
  (winningWagersOf r winner).map
    (fun w => (w.id, proportionalPayout w.amount (remainingPotOf r) (totalWinningOf r winner)))

/-! ## House-bet grading (`determineHouseBetResult`) -/

/-- `BetType` enum. -/
inductive BetType
  | MONEYLINE
  | SPREAD
  | TOTAL_OVER
  | TOTAL_UNDER
deriving Repr, DecidableEq

/-- `HouseBetResult` enum. -/
inductive HouseBetResult
  | WIN
  | LOSS
  | PUSH
deriving Repr, DecidableEq

/-- `HouseBetStatus` enum. -/
inductive HouseBetStatus
  | PENDING
  | ACTIVE
  | SETTLED
  | CANCELLED
deriving Repr, DecidableEq

/-- The fields of a house bet that grading reads. -/
structure GradeBet where
  betType : BetType
  pick : String
  line : Option ℚ
deriving Repr, DecidableEq

/-- The fields of a game record that grading reads. -/
structure GameResult where
  homeScore : Option ℤ
  awayScore : Option ℤ
  winner : Option String
deriving Repr, DecidableEq

/-- `determineHouseBetResult(bet, game)`: `null` scores defer grading;
MONEYLINE compares `game.winner === bet.pick` (a `null` winner compares
unequal, hence LOSS); SPREAD computes
`adjustedHomeScore = homeScore + (pick === 'home' ? line : 0)` and
`adjustedAwayScore = awayScore + (pick === 'away' ? -line : 0)` and compares
the picked side's adjusted score to the opponent's raw score; totals compare
the combined score to the line, equality being PUSH throughout. -/
def determineHouseBetResult (bet : GradeBet) (game : GameResult) :
    Option HouseBetResult :=
  match game.homeScore, game.awayScore with
  | some homeScore, some awayScore =>
    match bet.betType with
    | .MONEYLINE =>
      if game.winner = some bet.pick then some .WIN else some .LOSS
    | .SPREAD =>
      match bet.line with
      | none => none
      | some line =>
        let adjustedHomeScore : ℚ := homeScore + (if bet.pick = "home" then line else 0)
        let adjustedAwayScore : ℚ := awayScore + (if bet.pick = "away" then -line else 0)
        if bet.pick = "home" then
          if adjustedHomeScore > (awayScore : ℚ) then some .WIN
          else if adjustedHomeScore = (awayScore : ℚ) then some .PUSH
          else some .LOSS
        else
          if adjustedAwayScore > (homeScore : ℚ) then some .WIN
          else if adjustedAwayScore = (homeScore : ℚ) then some .PUSH
          else some .LOSS
    | .TOTAL_OVER =>
      match bet.line with
      | none => none
      | some line =>
        let total : ℚ := ((homeScore + awayScore : ℤ) : ℚ)
        if total > line then some .WIN
        else if total = line then some .PUSH
        else some .LOSS
    | .TOTAL_UNDER =>
      match bet.line with
      | none => none
      | some line =>
        let total : ℚ := ((homeScore + awayScore : ℤ) : ℚ)
        if total < line then some .WIN
        else if total = line then some .PUSH
        else some .LOSS
  | _, _ => none

/-- The spec's SPREAD grading rule, stated from its words for comparison
with the source's `determineHouseBetResult`: add the line to the picked
side's score and compare with the opposing side's raw score; strictly
greater is WIN, equality is PUSH, otherwise LOSS. -/
def specSpreadResult (pick : String) (line : ℚ) (homeScore awayScore : ℤ) :
    HouseBetResult :=
  let pickedAdjusted : ℚ :=
    (if pick = "home" then (homeScore : ℚ) else (awayScore : ℚ)) + line
  let opponentRaw : ℚ :=
    if pick = "home" then (awayScore : ℚ) else (homeScore : ℚ)
  if pickedAdjusted > opponentRaw then .WIN
  else if pickedAdjusted = opponentRaw then .PUSH
  else .LOSS

/-! ## Pooled house-bet settlement (`settleHouseBetWithPool`)

Tracked wallet balances are the in-memory `walletBalances` map, keyed by bet
id, snapshotted from the chain before the batch; balances are `Int` exactly
as the source's `bigint`, so that the no-overdraw property is a theorem and
not an artifact of truncated subtraction. -/

/-- The fields of a house bet that pooled settlement reads.  `hasWallet`
stands for `bet.depositAddress && bet.depositSecretKey` being present and
`hasUserAddress` for `bet.user.solanaAddress`. -/
structure HBet where
  id : Nat
  amount : ℤ
  potentialWin : ℤ
  hasWallet : Bool
  hasUserAddress : Bool
deriving Repr, DecidableEq

/-- Payout needed per graded bet (first pass of `settleHouseBets`):
WIN pays stake + profit (`potentialWin`), PUSH refunds the stake, LOSS
pays nothing. -/
def payoutNeededFor (result : HouseBetResult) (b : HBet) : ℤ :=
  match result with
  | .WIN => b.potentialWin
  | .PUSH => b.amount
  | .LOSS => 0

/-- `const txFeePerPayout = BigInt(5000)`. -/
def txFeePerPayout : ℤ := 5000

/-- What one `settleHouseBetWithPool` call did.  `amountPaid` and
`treasuryOwes` mirror the source's `amountPaid` accumulator and the
`TREASURY_OWES_<n>` marker appended to `payoutTx`; `ownDraw` is the amount
sent from the bet's own wallet and `loserDraws` the transfers drawn from
loser wallets (source id, amount). -/
structure HBOutcome where
  betId : Nat
  status : HouseBetStatus
  result : HouseBetResult
  amountPaid : ℤ
  treasuryOwes : ℤ
  ownDraw : ℤ
  loserDraws : List (Nat × ℤ)
deriving Repr, DecidableEq

/-- The loser-wallet loop of `settleHouseBetWithPool`: walk the batch in
order, skipping bets not graded LOSS, without a wallet, or equal to the bet
being paid, and wallets whose tracked balance does not exceed one fee;
draw `min(tracked - fee, remaining)`, decrement the tracked balance by the
draw plus the fee, and stop once the remainder reaches zero.  A thrown
send (`env` false for the source wallet) is caught: no draw, no decrement,
the loop continues. -/
def drawFromLosers (env : Nat → Bool) (me : Nat) :
    List (HBet × HouseBetResult) → (Nat → ℤ) → ℤ → (Nat → ℤ) × ℤ × List (Nat × ℤ)
  | [], bal, remaining => (bal, remaining, [])
  | o :: rest, bal, remaining =>
    if remaining ≤ 0 then (bal, remaining, [])
    else if o.2 = HouseBetResult.LOSS ∧ o.1.hasWallet = true ∧ o.1.id ≠ me ∧
        txFeePerPayout < bal o.1.id then
      let available := bal o.1.id - txFeePerPayout
      let toTransfer := if available > remaining then remaining else available
      if env o.1.id then
        let bal1 := fun j => if j = o.1.id then bal o.1.id - toTransfer - txFeePerPayout else bal j
        let next := drawFromLosers env me rest bal1 (remaining - toTransfer)
        (next.1, next.2.1, (o.1.id, toTransfer) :: next.2.2)
      else
        drawFromLosers env me rest bal remaining
    else
      drawFromLosers env me rest bal remaining

/-- The own-wallet block of `settleHouseBetWithPool`: when the bet has its
wallet and the tracked balance exceeds one fee, send
`payFromOwn = min(tracked - fee, remainingToPay)` to the user (a thrown
send — `env` false — is caught: nothing drawn) and decrement the tracked
balance by the draw plus the fee.  Returns the updated tracked balances,
the remaining amount to pay, and the amount drawn. -/
def ownWalletDraw (env : Nat → Bool) (bal : Nat → ℤ) (b : HBet)
    (payoutNeeded : ℤ) : (Nat → ℤ) × ℤ × ℤ :=
  let own := bal b.id
  if b.hasWallet = true ∧ txFeePerPayout < own then
    let payFromOwn := if own - txFeePerPayout > payoutNeeded then payoutNeeded
      else own - txFeePerPayout
    if env b.id then
      (fun j => if j = b.id then own - payFromOwn - txFeePerPayout else bal j,
        payoutNeeded - payFromOwn, payFromOwn)
    else (bal, payoutNeeded, 0)
  else (bal, payoutNeeded, 0)

/-- `settleHouseBetWithPool`: when a payout is needed and the user has a
payout address, first pay from the bet's own wallet — up to its tracked
balance minus one transaction fee, and no more than the payout needed —
then draw any remainder from the batch's loser wallets; a remainder still
uncovered is recorded as an explicit treasury obligation.  In every case the
bet is then marked SETTLED with its result. -/
def settleHouseBetWithPool (env : Nat → Bool) (bal : Nat → ℤ) (b : HBet)
    (result : HouseBetResult) (payoutNeeded : ℤ)
    (allBets : List (HBet × HouseBetResult)) : (Nat → ℤ) × HBOutcome :=
  if 0 < payoutNeeded ∧ b.hasUserAddress = true then
    let step1 := ownWalletDraw env bal b payoutNeeded
    let step2 :=
      if 0 < step1.2.1 then drawFromLosers env b.id allBets step1.1 step1.2.1
      else (step1.1, step1.2.1, [])
    (step2.1,
      { betId := b.id, status := .SETTLED, result := result,
        amountPaid := payoutNeeded - step2.2.1, treasuryOwes := step2.2.1,
        ownDraw := step1.2.2, loserDraws := step2.2.2 })
  else
    (bal,
      { betId := b.id, status := .SETTLED, result := result,
        amountPaid := 0, treasuryOwes := 0, ownDraw := 0, loserDraws := [] })

/-- The settlement loop of `settleHouseBets`: every graded bet of the batch
is settled in turn with `settleHouseBetWithPool`, threading the shared
tracked-balance map through the whole pass while the batch list itself
stays fixed. -/
def runHouseBetBatch (env : Nat → Bool) (allBets : List (HBet × HouseBetResult)) :
    (Nat → ℤ) → List (HBet × HouseBetResult) → (Nat → ℤ) × List HBOutcome
  | bal, [] => (bal, [])
  | bal, p :: rest =>
    let one := settleHouseBetWithPool env bal p.1 p.2 (payoutNeededFor p.2 p.1) allBets
    let more := runHouseBetBatch env allBets one.1 rest
    (more.1, one.2 :: more.2)

/-- `settleHouseBets`, pooled revision, after grading: run the batch loop
over the graded bets against the snapshotted wallet balances. -/
def settleHouseBetsBatch (env : Nat → Bool) (bal : Nat → ℤ)
    (bets : List (HBet × HouseBetResult)) : (Nat → ℤ) × List HBOutcome :=
  runHouseBetBatch env bets bal bets
/-! ## Theorems -/

/-- C8: on every acquisition the expired leases are deleted first and the
insert respects the unique constraint: every surviving pre-existing lease is
unexpired; a live lease for the resource makes the insert conflict, and
`acquireLock` returns `false` having done nothing beyond the reap (no
blocking, no retry); and when every lease for the resource has expired —
even one never released — the new caller acquires the lock. -/
theorem acquireLock_reap_conflict_expiry
    (now : Nat) (inst : String) (s : LockState) (rid : String) (t : Nat) :
    (∀ l ∈ (acquireLock now inst s rid t).1.leases, l ∈ s.leases → ¬ l.expiresAt < now) ∧
    ((∃ l ∈ s.leases, l.resourceId = rid ∧ ¬ l.expiresAt < now) →
      (acquireLock now inst s rid t).2 = false ∧
      (acquireLock now inst s rid t).1 = reapExpired now s) ∧
    ((∀ l ∈ s.leases, l.resourceId = rid → l.expiresAt < now) →
      (acquireLock now inst s rid t).2 = true ∧
      Lease.mk rid inst (now + t) ∈ (acquireLock now inst s rid t).1.leases) := by
  by_cases hany :
      (reapExpired now s).leases.any (fun l => l.resourceId == rid) = true
  · have hacq : acquireLock now inst s rid t = (reapExpired now s, false) := by
      unfold acquireLock
      simp only [hany, if_true]
    refine ⟨?_, fun _ => ⟨by rw [hacq], by rw [hacq]⟩, ?_⟩
    · intro l hl _
      rw [hacq] at hl
      have := (List.mem_filter.mp hl).2
      simpa using this
    · intro hall
      exfalso
      rcases List.any_eq_true.mp hany with ⟨l, hl, hlr⟩
      have hmem := (List.mem_filter.mp hl).1
      have hexp := (List.mem_filter.mp hl).2
      have hr : l.resourceId = rid := by simpa using hlr
      have := hall l hmem hr
      simp only [decide_eq_true_eq, Bool.not_eq_true'] at hexp
      simp only [decide_eq_false_iff_not] at hexp
      omega
  · have hacq : acquireLock now inst s rid t =
        (⟨{ resourceId := rid, lockedBy := inst, expiresAt := now + t } ::
            (reapExpired now s).leases⟩, true) := by
      unfold acquireLock
      simp only [hany, if_false, Bool.false_eq_true]
    refine ⟨?_, ?_, fun _ => ⟨by rw [hacq], by rw [hacq]; exact List.mem_cons_self _ _⟩⟩
    · intro l hl hls
      rw [hacq] at hl
      rcases List.mem_cons.mp hl with h | h
      · subst h; simp
      · have := (List.mem_filter.mp h).2
        simpa using this
    · rintro ⟨l, hl, hrid, hexp⟩
      exfalso
      apply hany
      refine List.any_eq_true.mpr ⟨l, ?_, by simpa using hrid⟩
      refine List.mem_filter.mpr ⟨hl, ?_⟩
      simpa using hexp

/-- C8 witness: a lease for `r` held by `i1` that expired at 500 is reaped
and re-acquired by `i2` at time 1000; a live lease (expiry 2000) blocks the
same acquisition, which returns `false` having only reaped. -/
theorem acquireLock_reap_conflict_expiry_witness :
    ((acquireLock 1000 "i2" ⟨[⟨"r", "i1", 500⟩]⟩ "r" 60000).2 = true ∧
      Lease.mk "r" "i2" 61000 ∈ (acquireLock 1000 "i2" ⟨[⟨"r", "i1", 500⟩]⟩ "r" 60000).1.leases) ∧
    ((acquireLock 1000 "i2" ⟨[⟨"r", "i1", 2000⟩]⟩ "r" 60000).2 = false ∧
      (acquireLock 1000 "i2" ⟨[⟨"r", "i1", 2000⟩]⟩ "r" 60000).1 =
        reapExpired 1000 ⟨[⟨"r", "i1", 2000⟩]⟩) := by
  constructor
  · exact (acquireLock_reap_conflict_expiry 1000 "i2" ⟨[⟨"r", "i1", 500⟩]⟩ "r" 60000).2.2
      (by intro l hl _; simp at hl; subst hl; decide)
  · exact (acquireLock_reap_conflict_expiry 1000 "i2" ⟨[⟨"r", "i1", 2000⟩]⟩ "r" 60000).2.1
      ⟨⟨"r", "i1", 2000⟩, by simp, rfl, by decide⟩

/-- C9: `releaseLock` only ever deletes leases held by the releasing
instance; a `withLock` call that failed to acquire performs no release (its
store state is exactly the failed acquisition's state) and does not run the
body; a call that did acquire releases on every exit path — normal return
and thrown error alike — leaving no lease for the resource, while the body's
effect and outcome are passed through. -/
theorem withLock_scoped_release
    (now : Nat) (inst : String) {W α : Type} (s : LockState) (w : W)
    (rid : String) (fn : W → W × Except Unit α) (t : Nat) :
    (∀ l ∈ s.leases, l ∉ (releaseLock inst s rid).leases →
      l.resourceId = rid ∧ l.lockedBy = inst) ∧
    ((acquireLock now inst s rid t).2 = false →
      withLock now inst s w rid fn t = ((acquireLock now inst s rid t).1, w, Except.ok none)) ∧
    ((acquireLock now inst s rid t).2 = true →
      (∀ l ∈ (withLock now inst s w rid fn t).1.leases, l.resourceId ≠ rid) ∧
      (withLock now inst s w rid fn t).2.1 = (fn w).1 ∧
      ((fn w).2 = Except.error () → (withLock now inst s w rid fn t).2.2 = Except.error ()) ∧
      (∀ a, (fn w).2 = Except.ok a →
        (withLock now inst s w rid fn t).2.2 = Except.ok (some a))) := by
  refine ⟨?_, ?_, ?_⟩
  · intro l hl hnot
    by_contra hcon
    apply hnot
    refine List.mem_filter.mpr ⟨hl, ?_⟩
    simp only [Bool.not_eq_true', Bool.and_eq_false_iff]
    rcases not_and_or.mp hcon with h | h
    · left; simpa using h
    · right; simpa using h
  · intro hfail
    simp [withLock, hfail]
  · intro hok
    have hnorid : ∀ l ∈ (acquireLock now inst s rid t).1.leases,
        l.resourceId = rid → l.lockedBy = inst ∧ l.expiresAt = now + t := by
      unfold acquireLock at hok ⊢
      by_cases hany :
          (reapExpired now s).leases.any (fun l => l.resourceId == rid) = true
      · rw [if_pos hany] at hok
        exact absurd hok (by simp)
      · rw [if_neg hany] at hok ⊢
        intro l hl hr
        rcases List.mem_cons.mp hl with h | h
        · subst h; exact ⟨rfl, rfl⟩
        · exfalso
          apply hany
          exact List.any_eq_true.mpr ⟨l, h, by simpa using hr⟩
    have hrel : ∀ l ∈ (releaseLock inst (acquireLock now inst s rid t).1 rid).leases,
        l.resourceId ≠ rid := by
      intro l hl
      have hmem := (List.mem_filter.mp hl).1
      have hpred := (List.mem_filter.mp hl).2
      intro hr
      have hinst := (hnorid l hmem hr).1
      simp [hr, hinst] at hpred
    rcases hfe : (fn w).2 with e | a
    · cases e
      have hw : withLock now inst s w rid fn t =
          (releaseLock inst (acquireLock now inst s rid t).1 rid, (fn w).1,
            Except.error ()) := by
        simp only [withLock, hok, hfe, if_true]
      rw [hw]
      exact ⟨hrel, rfl, fun _ => rfl, fun a ha => Except.noConfusion ha⟩
    · have hw : withLock now inst s w rid fn t =
          (releaseLock inst (acquireLock now inst s rid t).1 rid, (fn w).1,
            Except.ok (some a)) := by
        simp only [withLock, hok, hfe, if_true]
      rw [hw]
      refine ⟨hrel, rfl, fun hc => Except.noConfusion hc, fun b hb => ?_⟩
      injection hb with h
      rw [h]

/-- C9 witness: with an empty store, `withLock` runs a body returning
`.ok 3`, passes the value through, and leaves no lease for `r`; the theorem
is also applied on a body that throws, which still leaves no lease. -/
theorem withLock_scoped_release_witness :
    (∀ l ∈ (withLock 0 "me" (⟨[]⟩ : LockState) (0 : Nat) "r"
        (fun u => (u + 1, Except.ok (3 : Nat))) 1000).1.leases, l.resourceId ≠ "r") ∧
    (withLock 0 "me" (⟨[]⟩ : LockState) (0 : Nat) "r"
        (fun u => (u + 1, Except.ok (3 : Nat))) 1000).2.2 = Except.ok (some 3) ∧
    (withLock 0 "me" (⟨[]⟩ : LockState) (0 : Nat) "r"
        (fun u => (u + 1, (Except.error () : Except Unit Nat))) 1000).2.2 =
      Except.error () := by
  refine ⟨?_, ?_, ?_⟩
  · exact ((withLock_scoped_release 0 "me" (⟨[]⟩ : LockState) (0 : Nat) "r"
      (fun u => (u + 1, Except.ok (3 : Nat))) 1000).2.2 (by decide)).1
  · exact ((withLock_scoped_release 0 "me" (⟨[]⟩ : LockState) (0 : Nat) "r"
      (fun u => (u + 1, Except.ok (3 : Nat))) 1000).2.2 (by decide)).2.2.2 3 rfl
  · exact ((withLock_scoped_release 0 "me" (⟨[]⟩ : LockState) (0 : Nat) "r"
      (fun u => (u + 1, (Except.error () : Except Unit Nat))) 1000).2.2 (by decide)).2.2.1 rfl

/-- C10 counterexample: the skipped sentinel is TypeScript `null`, which is
not distinguishable from a body that itself returns `null`: with the same
null-returning body, the skipped call (live foreign lease, acquisition
fails) and the executed call (empty store, acquisition succeeds) return the
very same value. -/
theorem withLockNullable_null_body_indistinguishable :
    (withLockNullable 0 "me" (⟨[]⟩ : LockState) () "r"
        (fun u => (u, (none : Option Nat))) 60000).2.2 =
      (withLockNullable 0 "me" (⟨[⟨"r", "other", 99999⟩]⟩ : LockState) () "r"
        (fun u => (u, (none : Option Nat))) 60000).2.2 ∧
    (acquireLock 0 "me" (⟨[]⟩ : LockState) "r" 60000).2 = true ∧
    (acquireLock 0 "me" (⟨[⟨"r", "other", 99999⟩]⟩ : LockState) "r" 60000).2 = false := by
  refine ⟨rfl, by decide, by decide⟩

/-- C10 amended: the `null` sentinel distinguishes "did not run" from the
body's result only for bodies that never return `null`: for such a body the
returned value is `null` exactly when the lease was not acquired. -/
theorem withLockNullable_sentinel_for_nonnull_body
    (now : Nat) (inst : String) {W β : Type} (s : LockState) (w : W)
    (rid : String) (fn : W → W × Option β) (t : Nat)
    (hfn : ∀ x, (fn x).2 ≠ none) :
    (withLockNullable now inst s w rid fn t).2.2 = none ↔
      (acquireLock now inst s rid t).2 = false := by
  unfold withLockNullable
  rcases hacq : (acquireLock now inst s rid t).2 with _ | _
  · simp [hacq]
  · simp [hacq, hfn w]

/-- C10 amended witness: a body returning `some 7` on a store whose lease
for `r` is held live by another instance: the call returns `null`, and the
sentinel correctly reports that the body did not run. -/
theorem withLockNullable_sentinel_for_nonnull_body_witness :
    (withLockNullable 0 "me" (⟨[⟨"r", "other", 99999⟩]⟩ : LockState) () "r"
        (fun u => (u, some (7 : Nat))) 60000).2.2 = none := by
  exact (withLockNullable_sentinel_for_nonnull_body 0 "me"
    (⟨[⟨"r", "other", 99999⟩]⟩ : LockState) () "r"
    (fun u => (u, some (7 : Nat))) 60000 (fun x => by simp)).mpr (by decide)

/-- C7: SPREAD grading diverges from "add the line to the picked side's
score" for away picks — the source computes
`awayScore + (-line)`, i.e. it subtracts the away line.  At an away pick
with line `+3.5` and final score home 110, away 108, the spec rule gives
`108 + 3.5 = 111.5 > 110`, WIN, while the source grades LOSS
(`108 - 3.5 = 104.5 < 110`).  The claim's own home-pick scenario
(line `-3.5`, `110 - 3.5 = 106.5 < 108`) does grade LOSS in both. -/
theorem determineHouseBetResult_spread_away_negates_line :
    determineHouseBetResult ⟨BetType.SPREAD, "away", some (7 / 2)⟩
        ⟨some 110, some 108, some "home"⟩ = some HouseBetResult.LOSS ∧
    specSpreadResult "away" (7 / 2) 110 108 = HouseBetResult.WIN ∧
    determineHouseBetResult ⟨BetType.SPREAD, "home", some (-(7 / 2))⟩
        ⟨some 110, some 108, some "home"⟩ = some HouseBetResult.LOSS ∧
    specSpreadResult "home" (-(7 / 2)) 110 108 = HouseBetResult.LOSS := by
  have haw : ¬ ("away" : String) = "home" := by decide
  refine ⟨?_, ?_, ?_, ?_⟩ <;>
    norm_num [determineHouseBetResult, specSpreadResult, haw]

/-- Helper: a list sum of floored quotients is at most the floored quotient
of the sum. -/
theorem list_sum_div_le (l : List Nat) (c : Nat) :
    (l.map (fun a => a / c)).sum ≤ l.sum / c := by
  induction l with
  | nil => simp
  | cons a tl ih =>
    simp only [List.map_cons, List.sum_cons]
    calc a / c + (tl.map (fun a => a / c)).sum ≤ a / c + tl.sum / c := by
          exact Nat.add_le_add_left ih _
      _ ≤ (a + tl.sum) / c := Nat.add_div_le_add_div a tl.sum c

/-- C4: the proportional payout law.  The source's BigInt payout
`(amount * remainingPot) / totalWinningAmount` is exactly the floor of the
rational `amount × P / W`; over any list of winning amounts summing to
`W > 0` the computed payouts sum to at most `P`; and on the spec's scenario
(balance 450, fee rate 1%, wagers home 100 and 200, away 150, home wins)
the fee is 4, the remaining pot 446, and the computed payouts are exactly
148 and 297 for the home wagers, the away wager receiving nothing. -/
theorem proportionalPayout_law :
    (∀ a P W : Nat, 0 < W →
      Nat.floor ((a : ℚ) * (P : ℚ) / (W : ℚ)) = proportionalPayout a P W) ∧
    (∀ (amounts : List Nat) (P : Nat), 0 < amounts.sum →
      (amounts.map (fun a => proportionalPayout a P amounts.sum)).sum ≤ P) ∧
    (roundFee 450 = 4 ∧ remainingPotOf ⟨.LOCKED, 450, []⟩ = 446 ∧
      computedPayoutsOf
        ⟨.LOCKED, 450,
          [⟨1, "home", 100, false, some "a1"⟩, ⟨2, "home", 200, false, some "a2"⟩,
            ⟨3, "away", 150, false, some "a3"⟩]⟩ "home" = [(1, 148), (2, 297)]) := by
  refine ⟨?_, ?_, ?_, ?_, ?_⟩
  · intro a P W _
    have h1 : ((a : ℚ) * (P : ℚ)) = ((a * P : Nat) : ℚ) := by push_cast; ring
    rw [h1, Nat.floor_div_nat ((a * P : Nat) : ℚ) W, Nat.floor_natCast]
    rfl
  · intro amounts P hpos
    unfold proportionalPayout
    have h1 : (amounts.map (fun a => a * P / amounts.sum)).sum
        = ((amounts.map (fun a => a * P)).map (fun b => b / amounts.sum)).sum := by
      rw [List.map_map]
      rfl
    rw [h1]
    calc ((amounts.map (fun a => a * P)).map (fun b => b / amounts.sum)).sum
        ≤ (amounts.map (fun a => a * P)).sum / amounts.sum :=
          list_sum_div_le _ _
      _ = amounts.sum * P / amounts.sum := by
          rw [show (amounts.map (fun a => a * P)).sum = amounts.sum * P by
            simpa using List.sum_map_mul_right amounts id P]
      _ = P := by
          rw [Nat.mul_div_cancel_left P hpos]
  · rfl
  · rfl
  · rfl

/-- C4 witness: the law applied at the scenario's numbers — winning amounts
100 and 200 (W = 300) with pot-after-fee 446: the payouts sum to at most
446, and the 100-lamport wager's payout is the floor of 100×446/300. -/
theorem proportionalPayout_law_witness :
    (([100, 200].map (fun a => proportionalPayout a 446 ([100, 200] : List Nat).sum)).sum ≤ 446) ∧
    Nat.floor ((100 : ℚ) * (446 : ℚ) / ((300 : Nat) : ℚ)) = proportionalPayout 100 446 300 := by
  constructor
  · exact proportionalPayout_law.2.1 [100, 200] 446 (by decide)
  · exact proportionalPayout_law.1 100 446 300 (by decide)

/-- Helper: what the payout loop guarantees — every eligible winning wager
(payout address present, computed payout above the 5000-lamport cost) is
attempted no matter what earlier sends did, and `payoutsSuccessful` survives
exactly when every eligible send succeeded. -/
theorem payoutLoop_spec (env : SendEnv) (pot W : Nat) (ws : List SettleWager) :
    (∀ w ∈ ws, w.userAddress ≠ none →
      5000 < proportionalPayout w.amount pot W →
      (w.id, proportionalPayout w.amount pot W) ∈ (payoutLoop env pot W ws).1) ∧
    ((payoutLoop env pot W ws).2.2.2 = true ↔
      ∀ w ∈ ws, w.userAddress ≠ none →
        5000 < proportionalPayout w.amount pot W → env.payoutSendOk w.id = true) := by
  induction ws with
  | nil => simp [payoutLoop]
  | cons w tl ih =>
    by_cases haddr : w.userAddress = none
    · rw [show payoutLoop env pot W (w :: tl) = payoutLoop env pot W tl by
        simp [payoutLoop, haddr]]
      constructor
      · intro x hx hsome hgt
        rcases List.mem_cons.mp hx with rfl | hx'
        · exact absurd haddr hsome
        · exact ih.1 x hx' hsome hgt
      · rw [ih.2]
        constructor
        · intro h x hx hsome hgt
          rcases List.mem_cons.mp hx with rfl | hx'
          · exact absurd haddr hsome
          · exact h x hx' hsome hgt
        · intro h x hx hsome hgt
          exact h x (List.mem_cons_of_mem _ hx) hsome hgt
    · by_cases hsmall : proportionalPayout w.amount pot W ≤ 5000
      · rw [show payoutLoop env pot W (w :: tl) = payoutLoop env pot W tl by
          simp [payoutLoop, haddr, hsmall]]
        constructor
        · intro x hx hsome hgt
          rcases List.mem_cons.mp hx with rfl | hx'
          · omega
          · exact ih.1 x hx' hsome hgt
        · rw [ih.2]
          constructor
          · intro h x hx hsome hgt
            rcases List.mem_cons.mp hx with rfl | hx'
            · omega
            · exact h x hx' hsome hgt
          · intro h x hx hsome hgt
            exact h x (List.mem_cons_of_mem _ hx) hsome hgt
      · by_cases hok : env.payoutSendOk w.id = true
        · rw [show payoutLoop env pot W (w :: tl) =
              ((w.id, proportionalPayout w.amount pot W) :: (payoutLoop env pot W tl).1,
                ⟨.user w.id, proportionalPayout w.amount pot W⟩ :: (payoutLoop env pot W tl).2.1,
                w.id :: (payoutLoop env pot W tl).2.2.1,
                (payoutLoop env pot W tl).2.2.2) by
            simp [payoutLoop, haddr, hsmall, hok]]
          constructor
          · intro x hx hsome hgt
            rcases List.mem_cons.mp hx with rfl | hx'
            · exact List.mem_cons_self _ _
            · exact List.mem_cons_of_mem _ (ih.1 x hx' hsome hgt)
          · simp only
            rw [ih.2]
            constructor
            · intro h x hx hsome hgt
              rcases List.mem_cons.mp hx with rfl | hx'
              · exact hok
              · exact h x hx' hsome hgt
            · intro h x hx hsome hgt
              exact h x (List.mem_cons_of_mem _ hx) hsome hgt
        · rw [show payoutLoop env pot W (w :: tl) =
              ((w.id, proportionalPayout w.amount pot W) :: (payoutLoop env pot W tl).1,
                (payoutLoop env pot W tl).2.1,
                (payoutLoop env pot W tl).2.2.1,
                false) by
            simp [payoutLoop, haddr, hsmall, hok]]
          constructor
          · intro x hx hsome hgt
            rcases List.mem_cons.mp hx with rfl | hx'
            · exact List.mem_cons_self _ _
            · exact List.mem_cons_of_mem _ (ih.1 x hx' hsome hgt)
          · simp only
            constructor
            · intro hfalse
              cases hfalse
            · intro h
              exact absurd (h w (List.mem_cons_self _ _) haddr (by omega)) hok

/-- Helper: the value of `settleRound` on the main branch — a `LOCKED` round
with a non-empty wallet and a non-zero winning side. -/
theorem settleRound_eq_of_winners (env : SendEnv) (r : RoundState) (winner : String)
    (hlock : r.status = RoundStatus.LOCKED) (hbal : r.balance ≠ 0)
    (hW : totalWinningOf r winner ≠ 0) :
    settleRound env r winner =
      { status := if (payoutLoop env (remainingPotOf r) (totalWinningOf r winner)
            (winningWagersOf r winner)).2.2.2 then RoundStatus.SETTLED else r.status,
        sends := (if 5000 < roundFee r.balance then
            (if env.feeSendOk then [⟨Dest.treasury, roundFee r.balance⟩] else []) else []) ++
          (payoutLoop env (remainingPotOf r) (totalWinningOf r winner)
            (winningWagersOf r winner)).2.1,
        attempted := (payoutLoop env (remainingPotOf r) (totalWinningOf r winner)
            (winningWagersOf r winner)).1,
        paidIds := (payoutLoop env (remainingPotOf r) (totalWinningOf r winner)
            (winningWagersOf r winner)).2.2.1,
        threw := false } := by
  have hne : winningWagersOf r winner ≠ [] := by
    intro hnil
    apply hW
    unfold totalWinningOf
    rw [hnil]
    rfl
  unfold settleRound
  rw [if_neg (by simp [hlock])]
  rw [if_neg hbal]
  unfold winningWagersOf totalWinningOf remainingPotOf roundFee at *
  rw [if_neg ?_]
  · rfl
  · simp only [Bool.or_eq_true, List.isEmpty_iff, decide_eq_true_eq]
    intro hcon
    rcases hcon with h | h
    · exact hne h
    · exact hW h

/-- C3: for a `LOCKED` round with funds and a non-zero winning side, every
eligible winner (payout address present, payout above the 5000-lamport cost)
has its payout attempted regardless of other sends failing; the round is
marked `SETTLED` exactly when none of those payout sends threw; and
otherwise its status is left at `LOCKED` so a later pass retries. -/
theorem settleRound_settles_only_after_all_payouts
    (env : SendEnv) (r : RoundState) (winner : String)
    (hlock : r.status = RoundStatus.LOCKED) (hbal : r.balance ≠ 0)
    (hW : totalWinningOf r winner ≠ 0) :
    (∀ w ∈ winningWagersOf r winner, w.userAddress ≠ none →
      5000 < proportionalPayout w.amount (remainingPotOf r) (totalWinningOf r winner) →
      (w.id, proportionalPayout w.amount (remainingPotOf r) (totalWinningOf r winner))
        ∈ (settleRound env r winner).attempted) ∧
    ((settleRound env r winner).status = RoundStatus.SETTLED ↔
      ∀ w ∈ winningWagersOf r winner, w.userAddress ≠ none →
        5000 < proportionalPayout w.amount (remainingPotOf r) (totalWinningOf r winner) →
        env.payoutSendOk w.id = true) ∧
    ((settleRound env r winner).status = RoundStatus.SETTLED ∨
      (settleRound env r winner).status = RoundStatus.LOCKED) := by
  rw [settleRound_eq_of_winners env r winner hlock hbal hW]
  rcases hloop : (payoutLoop env (remainingPotOf r) (totalWinningOf r winner)
      (winningWagersOf r winner)).2.2.2 with _ | _
  · refine ⟨?_, ?_, ?_⟩
    · intro w hw haddr hgt
      exact (payoutLoop_spec env (remainingPotOf r) (totalWinningOf r winner)
        (winningWagersOf r winner)).1 w hw haddr hgt
    · simp only [hloop, if_false, Bool.false_eq_true, hlock]
      constructor
      · intro hcon
        cases hcon
      · intro hall
        exfalso
        have := (payoutLoop_spec env (remainingPotOf r) (totalWinningOf r winner)
          (winningWagersOf r winner)).2.mpr hall
        rw [hloop] at this
        cases this
    · simp [hloop, hlock]
  · refine ⟨?_, ?_, ?_⟩
    · intro w hw haddr hgt
      exact (payoutLoop_spec env (remainingPotOf r) (totalWinningOf r winner)
        (winningWagersOf r winner)).1 w hw haddr hgt
    · simp only [hloop, if_true]
      constructor
      · intro _
        exact (payoutLoop_spec env (remainingPotOf r) (totalWinningOf r winner)
          (winningWagersOf r winner)).2.mp hloop
      · intro _
        trivial
    · simp [hloop]

/-- C3 witness: a LOCKED round, balance 1000000, two home winners; the send
to wager 2 throws, so the attempted list still contains both payouts and the
round stays `LOCKED`. -/
theorem settleRound_settles_only_after_all_payouts_witness :
    ((1 : Nat), (495000 : Nat)) ∈ (settleRound ⟨true, true, fun i => i == 1⟩
      ⟨RoundStatus.LOCKED, 1000000,
        [⟨1, "home", 300000, false, some "a1"⟩, ⟨2, "home", 300000, false, some "a2"⟩]⟩
      "home").attempted ∧
    (settleRound ⟨true, true, fun i => i == 1⟩
      ⟨RoundStatus.LOCKED, 1000000,
        [⟨1, "home", 300000, false, some "a1"⟩, ⟨2, "home", 300000, false, some "a2"⟩]⟩
      "home").status = RoundStatus.LOCKED := by
  constructor
  · have h := (settleRound_settles_only_after_all_payouts ⟨true, true, fun i => i == 1⟩
      ⟨RoundStatus.LOCKED, 1000000,
        [⟨1, "home", 300000, false, some "a1"⟩, ⟨2, "home", 300000, false, some "a2"⟩]⟩
      "home" rfl (by decide) (by decide)).1
    have hm : SettleWager.mk 1 "home" 300000 false (some "a1") ∈
        winningWagersOf ⟨RoundStatus.LOCKED, 1000000,
          [⟨1, "home", 300000, false, some "a1"⟩, ⟨2, "home", 300000, false, some "a2"⟩]⟩
          "home" := by decide
    have := h _ hm (by simp) (by decide)
    simpa using this
  · have h := (settleRound_settles_only_after_all_payouts ⟨true, true, fun i => i == 1⟩
      ⟨RoundStatus.LOCKED, 1000000,
        [⟨1, "home", 300000, false, some "a1"⟩, ⟨2, "home", 300000, false, some "a2"⟩]⟩
      "home" rfl (by decide) (by decide)).2.1
    by_contra hcon
    rcases (settleRound_settles_only_after_all_payouts ⟨true, true, fun i => i == 1⟩
      ⟨RoundStatus.LOCKED, 1000000,
        [⟨1, "home", 300000, false, some "a1"⟩, ⟨2, "home", 300000, false, some "a2"⟩]⟩
      "home" rfl (by decide) (by decide)).2.2 with hs | hs
    · have hall := h.mp hs
      have hm2 : SettleWager.mk 2 "home" 300000 false (some "a2") ∈
          winningWagersOf ⟨RoundStatus.LOCKED, 1000000,
            [⟨1, "home", 300000, false, some "a1"⟩, ⟨2, "home", 300000, false, some "a2"⟩]⟩
            "home" := by decide
      have := hall _ hm2 (by simp) (by decide)
      simp at this
    · exact hcon hs

/-- C2: the status-level check holds (a round no longer `LOCKED` is skipped
with no transfers — see the first branch of `settleRound`), but the
wager-level half of the claim fails: the payout loop never consults
`paidOut`.  Concretely, on a second pass over a still-`LOCKED` round whose
wager 1 is already marked `paidOut = true`, `settleRound` executes a payout
send to wager 1 again (and the skip branch, for contrast, moves no funds on
a `SETTLED` round). -/
theorem settleRound_resends_paidOut_wager :
    (settleRound ⟨true, true, fun _ => true⟩
      ⟨RoundStatus.LOCKED, 1000000,
        [⟨1, "home", 300000, true, some "a1"⟩, ⟨2, "home", 300000, false, some "a2"⟩]⟩
      "home").sends =
      [⟨Dest.treasury, 10000⟩, ⟨Dest.user 1, 495000⟩, ⟨Dest.user 2, 495000⟩] ∧
    ([(⟨1, "home", 300000, true, some "a1"⟩ : SettleWager),
        ⟨2, "home", 300000, false, some "a2"⟩].map (fun w => (w.id, w.paidOut))) =
      [(1, true), (2, false)] ∧
    (settleRound ⟨true, true, fun _ => true⟩
      ⟨RoundStatus.SETTLED, 1000000,
        [⟨1, "home", 300000, true, some "a1"⟩, ⟨2, "home", 300000, false, some "a2"⟩]⟩
      "home").sends = [] := by
  refine ⟨?_, by decide, ?_⟩ <;> decide

/-- C5 counterexample: an `OPEN` round of a cancelled game holding a single
unpaid wager of 100 lamports is *not* refunded its 100 — the refund loop
skips any `amount <= 5000` as unable to cover the transaction cost — even
though the round is still marked `CANCELLED`; no send happens at all. -/
theorem refundRound_skips_100_lamport_wager :
    refundRound (fun _ => true)
      ⟨RoundStatus.OPEN, 0, [⟨1, "home", 100, false, some "addr"⟩]⟩ =
      { status := RoundStatus.CANCELLED, sends := [], paidIds := [] } := by
  decide

/-- C5 amended: for a round still `OPEN` or `LOCKED`, the refund path sends
back exactly the original amount of every wager that is not yet paid out,
has a payout address, and whose amount exceeds the 5000-lamport transfer
cost; wagers already marked `paidOut` receive nothing; every send repays
some such eligible wager its exact original amount; and the round is marked
`CANCELLED`. -/
theorem refundRound_refunds_eligible_wagers
    (env : Nat → Bool) (r : RoundState)
    (hst : r.status = RoundStatus.OPEN ∨ r.status = RoundStatus.LOCKED)
    (hnd : (r.wagers.map (fun w => w.id)).Nodup) :
    (refundRound env r).status = RoundStatus.CANCELLED ∧
    (∀ w ∈ r.wagers, w.paidOut = false → w.userAddress ≠ none → 5000 < w.amount →
      env w.id = true → (w.id, w.amount) ∈ (refundRound env r).sends) ∧
    (∀ w ∈ r.wagers, w.paidOut = true → ∀ p ∈ (refundRound env r).sends, p.1 ≠ w.id) ∧
    (∀ p ∈ (refundRound env r).sends, ∃ w ∈ r.wagers,
      w.id = p.1 ∧ w.amount = p.2 ∧ w.paidOut = false ∧ 5000 < w.amount) := by
  have hskip : ¬ (r.status = RoundStatus.SETTLED ∨ r.status = RoundStatus.CANCELLED) := by
    rcases hst with h | h <;> rw [h] <;> rintro (hc | hc) <;> cases hc
  have hr : refundRound env r =
      { status := RoundStatus.CANCELLED, sends := (refundLoop env r.wagers).1,
        paidIds := (refundLoop env r.wagers).2 } := by
    unfold refundRound
    rw [if_neg hskip]
  have hloop : ∀ l : List SettleWager,
      (∀ w ∈ l, w.paidOut = false → w.userAddress ≠ none → 5000 < w.amount →
        env w.id = true → (w.id, w.amount) ∈ (refundLoop env l).1) ∧
      (∀ p ∈ (refundLoop env l).1, ∃ w ∈ l,
        w.id = p.1 ∧ w.amount = p.2 ∧ w.paidOut = false ∧ 5000 < w.amount) := by
    intro l
    induction l with
    | nil => simp [refundLoop]
    | cons w tl ih =>
      by_cases hguard : (w.paidOut || w.userAddress == none || decide (w.amount ≤ 5000)) = true
      · rw [show refundLoop env (w :: tl) = refundLoop env tl by
          simp only [refundLoop, hguard, if_true]]
        refine ⟨?_, ?_⟩
        · intro x hx hpaid haddr hamt henv
          rcases List.mem_cons.mp hx with rfl | hx'
          · exfalso
            simp only [Bool.or_eq_true, beq_iff_eq, decide_eq_true_eq] at hguard
            rcases hguard with (h | h) | h
            · rw [hpaid] at h
              cases h
            · exact haddr h
            · omega
          · exact ih.1 x hx' hpaid haddr hamt henv
        · intro p hp
          rcases ih.2 p hp with ⟨x, hx, hxs⟩
          exact ⟨x, List.mem_cons_of_mem _ hx, hxs⟩
      · by_cases henv : env w.id = true
        · rw [show refundLoop env (w :: tl) =
              ((w.id, w.amount) :: (refundLoop env tl).1, w.id :: (refundLoop env tl).2) by
            simp only [refundLoop, hguard, henv, if_false, if_true, Bool.false_eq_true]]
          simp only [Bool.or_eq_true, beq_iff_eq, decide_eq_true_eq, not_or, not_le,
            Bool.not_eq_true] at hguard
          refine ⟨?_, ?_⟩
          · intro x hx hpaid haddr hamt henv2
            rcases List.mem_cons.mp hx with rfl | hx'
            · exact List.mem_cons_self _ _
            · exact List.mem_cons_of_mem _ (ih.1 x hx' hpaid haddr hamt henv2)
          · intro p hp
            rcases List.mem_cons.mp hp with rfl | hp'
            · exact ⟨w, List.mem_cons_self _ _, rfl, rfl, hguard.1.1, hguard.2⟩
            · rcases ih.2 p hp' with ⟨x, hx, hxs⟩
              exact ⟨x, List.mem_cons_of_mem _ hx, hxs⟩
        · rw [show refundLoop env (w :: tl) = refundLoop env tl by
            simp only [refundLoop, hguard, henv, if_false, Bool.false_eq_true]]
          refine ⟨?_, ?_⟩
          · intro x hx hpaid haddr hamt henv2
            rcases List.mem_cons.mp hx with rfl | hx'
            · exact absurd henv2 henv
            · exact ih.1 x hx' hpaid haddr hamt henv2
          · intro p hp
            rcases ih.2 p hp with ⟨x, hx, hxs⟩
            exact ⟨x, List.mem_cons_of_mem _ hx, hxs⟩
  rw [hr]
  refine ⟨rfl, ?_, ?_, ?_⟩
  · intro w hw hpaid haddr hamt henv
    exact (hloop r.wagers).1 w hw hpaid haddr hamt henv
  · intro w hw hpaid p hp hpw
    rcases (hloop r.wagers).2 p hp with ⟨x, hx, hid, _, hxpaid, _⟩
    have hxw : x = w := List.inj_on_of_nodup_map hnd hx hw (by rw [hid, hpw])
    rw [hxw] at hxpaid
    rw [hpaid] at hxpaid
    cases hxpaid
  · exact (hloop r.wagers).2

/-- C5 amended witness: an `OPEN` round with an unpaid 1000000-lamport wager
(id 1) and an already-paid wager (id 2): the refund sends exactly 1000000 to
wager 1, never touches wager 2, and cancels the round. -/
theorem refundRound_refunds_eligible_wagers_witness :
    ((1 : Nat), (1000000 : Nat)) ∈ (refundRound (fun _ => true)
      ⟨RoundStatus.OPEN, 0,
        [⟨1, "home", 1000000, false, some "a1"⟩, ⟨2, "away", 700000, true, some "a2"⟩]⟩).sends ∧
    (∀ p ∈ (refundRound (fun _ => true)
      ⟨RoundStatus.OPEN, 0,
        [⟨1, "home", 1000000, false, some "a1"⟩, ⟨2, "away", 700000, true, some "a2"⟩]⟩).sends,
      p.1 ≠ 2) ∧
    (refundRound (fun _ => true)
      ⟨RoundStatus.OPEN, 0,
        [⟨1, "home", 1000000, false, some "a1"⟩, ⟨2, "away", 700000, true, some "a2"⟩]⟩).status =
      RoundStatus.CANCELLED := by
  have h := refundRound_refunds_eligible_wagers (fun _ => true)
    ⟨RoundStatus.OPEN, 0,
      [⟨1, "home", 1000000, false, some "a1"⟩, ⟨2, "away", 700000, true, some "a2"⟩]⟩
    (Or.inl rfl) (by decide)
  refine ⟨?_, ?_, h.1⟩
  · exact h.2.1 ⟨1, "home", 1000000, false, some "a1"⟩ (by decide) rfl (by simp) (by decide) rfl
  · exact h.2.2.1 ⟨2, "away", 700000, true, some "a2"⟩ (by decide) rfl

/-- Helper: a successful `find?` splits the list into an untouched head
segment with no match, the found element, and an untouched tail; an
update-by-id map then rewrites exactly the found element when ids are
unique. -/
theorem find?_update_decomposition (l : List PWager) (p : PWager → Bool) (pw : PWager)
    (upd : PWager → PWager)
    (hfind : l.find? p = some pw)
    (hnd : (l.map (fun w => w.id)).Nodup) :
    ∃ l1 l2, l = l1 ++ pw :: l2 ∧ (∀ w ∈ l1, p w = false) ∧
      l.map (fun w => if w.id == pw.id then upd w else w) = l1 ++ upd pw :: l2 := by
  induction l with
  | nil => cases hfind
  | cons a tl ih =>
    by_cases hpa : p a = true
    · have hpw : pw = a := by
        rw [List.find?_cons_of_pos _ hpa] at hfind
        exact (Option.some_inj.mp hfind).symm
      subst hpw
      refine ⟨[], tl, rfl, by simp, ?_⟩
      simp only [List.map_cons, beq_self_eq_true, if_true, List.nil_append]
      congr 1
      have hida : pw.id ∉ tl.map (fun w => w.id) := (List.nodup_cons.mp hnd).1
      have hcongr : ∀ w ∈ tl, (if w.id == pw.id then upd w else w) = w := by
        intro w hw
        rw [if_neg]
        simp only [beq_iff_eq]
        intro hcon
        have hin : w.id ∈ tl.map (fun w => w.id) := List.mem_map_of_mem (fun w => w.id) hw
        rw [hcon] at hin
        exact hida hin
      calc tl.map (fun w => if w.id == pw.id then upd w else w)
          = tl.map (fun w => w) := List.map_congr_left hcongr
        _ = tl := List.map_id' tl
    · have hpa' : p a = false := Bool.not_eq_true (p a) ▸ hpa
      have hfind' : tl.find? p = some pw := by
        rw [List.find?_cons_of_neg _ (by rw [hpa']; exact Bool.false_ne_true)] at hfind
        exact hfind
      have hnd' : (tl.map (fun w => w.id)).Nodup := (List.nodup_cons.mp hnd).2
      rcases ih hfind' hnd' with ⟨l1, l2, heq, hnp, hmap⟩
      refine ⟨a :: l1, l2, by rw [heq]; rfl, ?_, ?_⟩
      · intro w hw
        rcases List.mem_cons.mp hw with rfl | hw'
        · exact hpa'
        · exact hnp w hw'
      · have hane : (a.id == pw.id) = false := by
          have hmem : pw ∈ tl := List.mem_of_find?_eq_some hfind'
          have hidmem : pw.id ∈ tl.map (fun w => w.id) :=
            List.mem_map_of_mem (fun w => w.id) hmem
          have : a.id ≠ pw.id := by
            intro hcon
            have hno : a.id ∉ tl.map (fun w => w.id) := (List.nodup_cons.mp hnd).1
            rw [hcon] at hno
            exact hno hidmem
          simpa using this
        simp only [List.map_cons, hane, Bool.false_eq_true, if_false, hmap, List.cons_append]

/-- C1: processing one chain-transaction signature as a round deposit twice
(the event and poll paths racing past the upfront ledger check into the same
atomic transaction) updates exactly one wager — the first pending one, whose
amount and tx reference are set while every other row is untouched — and
writes exactly one ledger row; the second execution hits the ledger's unique
constraint and is treated as already handled: its state is returned
unchanged and the outcome is the caught-conflict value, not an error.  A
later poll pass over the same signature is short-circuited by
`isTransactionProcessed` with no state change either. -/
theorem depositTxCore_race_idempotent
    (s : DepositState) (sig : String) (capped : Nat) (pw : PWager)
    (hnew : isTransactionProcessed s sig = false)
    (hfind : s.wagers.find? (fun w => w.amount == 0 && w.txSignature == none) = some pw)
    (hnd : (s.wagers.map (fun w => w.id)).Nodup) :
    ((depositTxCore s sig capped).2 = DepositOutcome.linked pw.id) ∧
    (∃ l1 l2, s.wagers = l1 ++ pw :: l2 ∧
      (∀ w ∈ l1, (w.amount == 0 && w.txSignature == none) = false) ∧
      (depositTxCore s sig capped).1.wagers =
        l1 ++ { pw with amount := capped, txSignature := some sig } :: l2) ∧
    ((depositTxCore s sig capped).1.totalPot = s.totalPot + capped) ∧
    ((depositTxCore s sig capped).1.processed.countP (fun t => t.signature == sig) = 1) ∧
    (depositTxCore (depositTxCore s sig capped).1 sig capped =
      ((depositTxCore s sig capped).1, DepositOutcome.alreadyProcessed)) ∧
    (∀ maxP2p amount2, processRoundDeposit maxP2p (depositTxCore s sig capped).1 sig amount2 =
      ((depositTxCore s sig capped).1, DepositOutcome.skippedAlreadyProcessed)) := by
  have hcore : depositTxCore s sig capped =
      ({ wagers := s.wagers.map (fun w =>
            if w.id == pw.id then { w with amount := capped, txSignature := some sig } else w),
         totalPot := s.totalPot + capped,
         processed := s.processed ++ [⟨sig, capped⟩] }, .linked pw.id) := by
    unfold depositTxCore
    rw [if_neg (by rw [hnew]; exact Bool.false_ne_true), hfind]
  have hproc1 : isTransactionProcessed (depositTxCore s sig capped).1 sig = true := by
    rw [hcore]
    unfold isTransactionProcessed
    simp
  refine ⟨by rw [hcore], ?_, by rw [hcore], ?_, ?_, ?_⟩
  · rcases find?_update_decomposition s.wagers _ pw
        (fun w => { w with amount := capped, txSignature := some sig }) hfind hnd with
      ⟨l1, l2, heq, hnp, hmap⟩
    exact ⟨l1, l2, heq, hnp, by rw [hcore]; exact hmap⟩
  · rw [hcore]
    simp only [List.countP_append]
    have h0 : s.processed.countP (fun t => t.signature == sig) = 0 := by
      rw [List.countP_eq_zero]
      intro t ht hcon
      have : s.processed.any (fun t => t.signature == sig) = true :=
        List.any_eq_true.mpr ⟨t, ht, hcon⟩
      rw [isTransactionProcessed] at hnew
      rw [hnew] at this
      cases this
    rw [h0]
    simp [List.countP_cons]
  · have hdup : ∀ st : DepositState, isTransactionProcessed st sig = true →
        depositTxCore st sig capped = (st, DepositOutcome.alreadyProcessed) := by
      intro st hst
      unfold depositTxCore
      rw [if_pos hst]
    exact hdup _ hproc1
  · intro maxP2p amount2
    have hskip : ∀ st : DepositState, isTransactionProcessed st sig = true →
        processRoundDeposit maxP2p st sig amount2 =
          (st, DepositOutcome.skippedAlreadyProcessed) := by
      intro st hst
      unfold processRoundDeposit
      rw [if_pos hst]
    exact hskip _ hproc1

/-- C1 witness: a round with pending wager 1 and an already-attributed
wager 2; signature `sigX` for 20000000 lamports is processed twice: the
first pass links wager 1 and writes the single ledger row, the second
returns the state unchanged with the already-handled outcome. -/
theorem depositTxCore_race_idempotent_witness :
    ((depositTxCore ⟨[⟨1, 0, none⟩, ⟨2, 15000000, some "old"⟩], 15000000,
        [⟨"old", 15000000⟩]⟩ "sigX" 20000000).2 = DepositOutcome.linked 1) ∧
    ((depositTxCore ⟨[⟨1, 0, none⟩, ⟨2, 15000000, some "old"⟩], 15000000,
        [⟨"old", 15000000⟩]⟩ "sigX" 20000000).1.processed.countP
      (fun t => t.signature == "sigX") = 1) ∧
    (depositTxCore (depositTxCore ⟨[⟨1, 0, none⟩, ⟨2, 15000000, some "old"⟩], 15000000,
        [⟨"old", 15000000⟩]⟩ "sigX" 20000000).1 "sigX" 20000000 =
      ((depositTxCore ⟨[⟨1, 0, none⟩, ⟨2, 15000000, some "old"⟩], 15000000,
        [⟨"old", 15000000⟩]⟩ "sigX" 20000000).1, DepositOutcome.alreadyProcessed)) := by
  have h := depositTxCore_race_idempotent
    ⟨[⟨1, 0, none⟩, ⟨2, 15000000, some "old"⟩], 15000000, [⟨"old", 15000000⟩]⟩
    "sigX" 20000000 ⟨1, 0, none⟩ (by decide) (by decide) (by decide)
  exact ⟨h.1, h.2.2.2.1, h.2.2.2.2.1⟩

/-- Helper: invariants of the loser-wallet draw loop.  The final remainder
stays between 0 and the initial remainder; every tracked balance is either
untouched or decremented while staying non-negative; the amount drawn equals
the drop in the remainder; every draw comes from a LOSS bet of the batch
other than the bet being paid; and a positive final remainder means every
drawable loser wallet was exhausted down to (at most) one transaction fee. -/
theorem drawFromLosers_spec (env : Nat → Bool) (me : Nat)
    (l : List (HBet × HouseBetResult)) :
    ∀ (bal : Nat → ℤ) (remaining : ℤ), 0 ≤ remaining →
    (0 ≤ (drawFromLosers env me l bal remaining).2.1) ∧
    ((drawFromLosers env me l bal remaining).2.1 ≤ remaining) ∧
    (∀ j, (drawFromLosers env me l bal remaining).1 j = bal j ∨
      (0 ≤ (drawFromLosers env me l bal remaining).1 j ∧
        (drawFromLosers env me l bal remaining).1 j ≤ bal j)) ∧
    (remaining - (drawFromLosers env me l bal remaining).2.1 =
      (((drawFromLosers env me l bal remaining).2.2).map (fun d => d.2)).sum) ∧
    (∀ d ∈ (drawFromLosers env me l bal remaining).2.2, ∃ p ∈ l,
      p.1.id = d.1 ∧ p.2 = HouseBetResult.LOSS ∧ d.1 ≠ me ∧ 0 < d.2) ∧
    (0 < (drawFromLosers env me l bal remaining).2.1 →
      ∀ p ∈ l, p.2 = HouseBetResult.LOSS → p.1.hasWallet = true → p.1.id ≠ me →
        env p.1.id = true →
        (drawFromLosers env me l bal remaining).1 p.1.id ≤ txFeePerPayout) := by
  have hfee : (0 : ℤ) < txFeePerPayout := by norm_num [txFeePerPayout]
  induction l with
  | nil =>
    intro bal remaining h0
    refine ⟨h0, le_refl _, fun j => Or.inl rfl, by simp [drawFromLosers], ?_, ?_⟩
    · intro d hd
      simp [drawFromLosers] at hd
    · intro _ p hp
      simp at hp
  | cons o rest ih =>
    intro bal remaining h0
    by_cases hrem : remaining ≤ 0
    · rw [show drawFromLosers env me (o :: rest) bal remaining = (bal, remaining, []) by
        rw [drawFromLosers]
        rw [if_pos hrem]]
      refine ⟨h0, le_refl _, fun j => Or.inl rfl, by simp, by simp, ?_⟩
      intro hpos
      have hpos' : (0 : ℤ) < remaining := hpos
      exact absurd hpos' (by omega)
    · by_cases helig : o.2 = HouseBetResult.LOSS ∧ o.1.hasWallet = true ∧ o.1.id ≠ me ∧
          txFeePerPayout < bal o.1.id
      · by_cases henv : env o.1.id = true
        · have heq : drawFromLosers env me (o :: rest) bal remaining =
              ((drawFromLosers env me rest
                  (fun j => if j = o.1.id then
                    bal o.1.id -
                      (if bal o.1.id - txFeePerPayout > remaining then remaining
                        else bal o.1.id - txFeePerPayout) - txFeePerPayout
                    else bal j)
                  (remaining -
                    (if bal o.1.id - txFeePerPayout > remaining then remaining
                      else bal o.1.id - txFeePerPayout))).1,
                (drawFromLosers env me rest
                  (fun j => if j = o.1.id then
                    bal o.1.id -
                      (if bal o.1.id - txFeePerPayout > remaining then remaining
                        else bal o.1.id - txFeePerPayout) - txFeePerPayout
                    else bal j)
                  (remaining -
                    (if bal o.1.id - txFeePerPayout > remaining then remaining
                      else bal o.1.id - txFeePerPayout))).2.1,
                (o.1.id,
                  (if bal o.1.id - txFeePerPayout > remaining then remaining
                    else bal o.1.id - txFeePerPayout)) ::
                (drawFromLosers env me rest
                  (fun j => if j = o.1.id then
                    bal o.1.id -
                      (if bal o.1.id - txFeePerPayout > remaining then remaining
                        else bal o.1.id - txFeePerPayout) - txFeePerPayout
                    else bal j)
                  (remaining -
                    (if bal o.1.id - txFeePerPayout > remaining then remaining
                      else bal o.1.id - txFeePerPayout))).2.2) := by
            rw [drawFromLosers]
            rw [if_neg hrem, if_pos helig, if_pos henv]
          set toTransfer :=
            (if bal o.1.id - txFeePerPayout > remaining then remaining
              else bal o.1.id - txFeePerPayout) with htt
          set bal1 := (fun j => if j = o.1.id then
              bal o.1.id - toTransfer - txFeePerPayout else bal j) with hbal1
          have htpos : 0 < toTransfer := by
            rw [htt]
            split <;> omega
          have htle : toTransfer ≤ remaining := by
            rw [htt]
            split <;> omega
          have htava : toTransfer ≤ bal o.1.id - txFeePerPayout := by
            rw [htt]
            split <;> omega
          have h0' : 0 ≤ remaining - toTransfer := by omega
          have IH := ih bal1 (remaining - toTransfer) h0'
          rw [heq]
          refine ⟨IH.1, le_trans IH.2.1 (by omega), ?_, ?_, ?_, ?_⟩
          · intro j
            show (drawFromLosers env me rest bal1 (remaining - toTransfer)).1 j = bal j ∨
              (0 ≤ (drawFromLosers env me rest bal1 (remaining - toTransfer)).1 j ∧
                (drawFromLosers env me rest bal1 (remaining - toTransfer)).1 j ≤ bal j)
            by_cases hj : j = o.1.id
            · subst hj
              have hb1 : bal1 o.1.id = bal o.1.id - toTransfer - txFeePerPayout := by
                rw [hbal1]
                simp
              rcases IH.2.2.1 o.1.id with h | h
              · right
                rw [h, hb1]
                constructor <;> omega
              · right
                rw [hb1] at h
                constructor <;> omega
            · have hb1 : bal1 j = bal j := by
                rw [hbal1]
                simp [hj]
              rcases IH.2.2.1 j with h | h
              · left
                rw [h, hb1]
              · right
                rw [hb1] at h
                exact h
          · show remaining - (drawFromLosers env me rest bal1 (remaining - toTransfer)).2.1 =
              (((o.1.id, toTransfer) ::
                (drawFromLosers env me rest bal1 (remaining - toTransfer)).2.2).map
                  (fun d => d.2)).sum
            simp only [List.map_cons, List.sum_cons]
            have := IH.2.2.2.1
            omega
          · intro d hd
            rcases List.mem_cons.mp hd with rfl | hd'
            · exact ⟨o, List.mem_cons_self _ _, rfl, helig.1, helig.2.2.1, htpos⟩
            · rcases IH.2.2.2.2.1 d hd' with ⟨p, hp, hps⟩
              exact ⟨p, List.mem_cons_of_mem _ hp, hps⟩
          · intro hpos p hp hploss hpw hpne hpenv
            have hpos' : 0 < (drawFromLosers env me rest bal1 (remaining - toTransfer)).2.1 :=
              hpos
            have hdrain : toTransfer = bal o.1.id - txFeePerPayout := by
              by_cases hgt : bal o.1.id - txFeePerPayout > remaining
              · exfalso
                have h1 : toTransfer = remaining := by rw [htt, if_pos hgt]
                have h2 : (drawFromLosers env me rest bal1 (remaining - toTransfer)).2.1 ≤
                    remaining - toTransfer := IH.2.1
                have h3 : 0 < (drawFromLosers env me rest bal1 (remaining - toTransfer)).2.1 :=
                  hpos'
                omega
              · rw [htt, if_neg hgt]
            rcases List.mem_cons.mp hp with rfl | hp'
            · show (drawFromLosers env me rest bal1 (remaining - toTransfer)).1 p.1.id ≤
                txFeePerPayout
              have hb1 : bal1 p.1.id = 0 := by
                have hb : bal1 p.1.id = bal p.1.id - toTransfer - txFeePerPayout := by
                  rw [hbal1]
                  simp
                rw [hb, hdrain]
                omega
              rcases IH.2.2.1 p.1.id with h | h
              · rw [h, hb1]
                omega
              · rw [hb1] at h
                omega
            · exact IH.2.2.2.2.2 hpos' p hp' hploss hpw hpne hpenv
        · have heq : drawFromLosers env me (o :: rest) bal remaining =
              drawFromLosers env me rest bal remaining := by
            rw [drawFromLosers]
            rw [if_neg hrem, if_pos helig, if_neg henv]
          have IH := ih bal remaining h0
          rw [heq]
          refine ⟨IH.1, IH.2.1, IH.2.2.1, IH.2.2.2.1, ?_, ?_⟩
          · intro d hd
            rcases IH.2.2.2.2.1 d hd with ⟨p, hp, hps⟩
            exact ⟨p, List.mem_cons_of_mem _ hp, hps⟩
          · intro hpos p hp hploss hpw hpne hpenv
            rcases List.mem_cons.mp hp with rfl | hp'
            · exact absurd hpenv henv
            · exact IH.2.2.2.2.2 hpos p hp' hploss hpw hpne hpenv
      · have heq : drawFromLosers env me (o :: rest) bal remaining =
            drawFromLosers env me rest bal remaining := by
          rw [drawFromLosers]
          rw [if_neg hrem, if_neg helig]
        have IH := ih bal remaining h0
        rw [heq]
        refine ⟨IH.1, IH.2.1, IH.2.2.1, IH.2.2.2.1, ?_, ?_⟩
        · intro d hd
          rcases IH.2.2.2.2.1 d hd with ⟨p, hp, hps⟩
          exact ⟨p, List.mem_cons_of_mem _ hp, hps⟩
        · intro hpos p hp hploss hpw hpne hpenv
          rcases List.mem_cons.mp hp with rfl | hp'
          · have hble : bal p.1.id ≤ txFeePerPayout := by
              by_contra hcon
              exact helig ⟨hploss, hpw, hpne, by omega⟩
            rcases IH.2.2.1 p.1.id with h | h
            · rw [h]
              exact hble
            · omega
          · exact IH.2.2.2.2.2 hpos p hp' hploss hpw hpne hpenv


/-- Helper: invariants of the own-wallet draw block. -/
theorem ownWalletDraw_spec (env : Nat → Bool) (bal : Nat → ℤ) (b : HBet)
    (payoutNeeded : ℤ) (hneed : 0 ≤ payoutNeeded) (hbal : ∀ j, 0 ≤ bal j) :
    (0 ≤ (ownWalletDraw env bal b payoutNeeded).2.2) ∧
    ((ownWalletDraw env bal b payoutNeeded).2.2 ≤ payoutNeeded) ∧
    ((ownWalletDraw env bal b payoutNeeded).2.1 =
      payoutNeeded - (ownWalletDraw env bal b payoutNeeded).2.2) ∧
    (∀ j, 0 ≤ (ownWalletDraw env bal b payoutNeeded).1 j ∧
      (ownWalletDraw env bal b payoutNeeded).1 j ≤ bal j) ∧
    ((b.hasWallet = true ∧ txFeePerPayout < bal b.id ∧ env b.id = true) →
      (ownWalletDraw env bal b payoutNeeded).2.2 =
        min (bal b.id - txFeePerPayout) payoutNeeded) := by
  have hfee : (0 : ℤ) < txFeePerPayout := by norm_num [txFeePerPayout]
  by_cases hw : b.hasWallet = true ∧ txFeePerPayout < bal b.id
  · by_cases henv : env b.id = true
    · have heq : ownWalletDraw env bal b payoutNeeded =
          (fun j => if j = b.id then
              bal b.id -
                (if bal b.id - txFeePerPayout > payoutNeeded then payoutNeeded
                  else bal b.id - txFeePerPayout) - txFeePerPayout
            else bal j,
            payoutNeeded -
              (if bal b.id - txFeePerPayout > payoutNeeded then payoutNeeded
                else bal b.id - txFeePerPayout),
            (if bal b.id - txFeePerPayout > payoutNeeded then payoutNeeded
              else bal b.id - txFeePerPayout)) := by
        simp only [ownWalletDraw]
        rw [if_pos hw, if_pos henv]
      rw [heq]
      have hp1 : 0 ≤ (if bal b.id - txFeePerPayout > payoutNeeded then payoutNeeded
          else bal b.id - txFeePerPayout) := by
        split <;> omega
      have hp2 : (if bal b.id - txFeePerPayout > payoutNeeded then payoutNeeded
          else bal b.id - txFeePerPayout) ≤ payoutNeeded := by
        split <;> omega
      have hp3 : (if bal b.id - txFeePerPayout > payoutNeeded then payoutNeeded
          else bal b.id - txFeePerPayout) ≤ bal b.id - txFeePerPayout := by
        split <;> omega
      refine ⟨hp1, hp2, rfl, ?_, ?_⟩
      · intro j
        by_cases hj : j = b.id
        · subst hj
          constructor
          · simp only [if_pos rfl]
            omega
          · simp only [if_pos rfl]
            omega
        · simp only [if_neg hj]
          exact ⟨hbal j, le_refl _⟩
      · intro _
        show (if bal b.id - txFeePerPayout > payoutNeeded then payoutNeeded
            else bal b.id - txFeePerPayout) = min (bal b.id - txFeePerPayout) payoutNeeded
        rw [Int.min_def]
        split <;> split <;> omega
    · have heq : ownWalletDraw env bal b payoutNeeded = (bal, payoutNeeded, 0) := by
        simp only [ownWalletDraw]
        rw [if_pos hw, if_neg henv]
      rw [heq]
      refine ⟨le_refl _, hneed, by ring, fun j => ⟨hbal j, le_refl _⟩, ?_⟩
      intro hcon
      exact absurd hcon.2.2 henv
  · have heq : ownWalletDraw env bal b payoutNeeded = (bal, payoutNeeded, 0) := by
      simp only [ownWalletDraw]
      rw [if_neg hw]
    rw [heq]
    refine ⟨le_refl _, hneed, by ring, fun j => ⟨hbal j, le_refl _⟩, ?_⟩
    intro hcon
    exact absurd ⟨hcon.1, hcon.2.1⟩ hw

/-- Helper: a single `settleHouseBetWithPool` call settles the bet, conserves
the payout (amount paid plus recorded treasury obligation equals the payout
needed), pays first from the bet's own wallet — exactly
`min(tracked balance - fee, payoutNeeded)` when that wallet is funded and
its send succeeds — draws the remainder from loser wallets only, and never
drives a tracked balance negative or above its previous value. -/
theorem settleHouseBetWithPool_spec (env : Nat → Bool) (bal : Nat → ℤ) (b : HBet)
    (result : HouseBetResult) (payoutNeeded : ℤ) (allBets : List (HBet × HouseBetResult))
    (hneed : 0 ≤ payoutNeeded) (hbal : ∀ j, 0 ≤ bal j) :
    ((settleHouseBetWithPool env bal b result payoutNeeded allBets).2.status =
      HouseBetStatus.SETTLED) ∧
    ((settleHouseBetWithPool env bal b result payoutNeeded allBets).2.result = result) ∧
    ((settleHouseBetWithPool env bal b result payoutNeeded allBets).2.betId = b.id) ∧
    ((settleHouseBetWithPool env bal b result payoutNeeded allBets).2.amountPaid +
      (settleHouseBetWithPool env bal b result payoutNeeded allBets).2.treasuryOwes =
      (if 0 < payoutNeeded ∧ b.hasUserAddress = true then payoutNeeded else 0)) ∧
    (0 ≤ (settleHouseBetWithPool env bal b result payoutNeeded allBets).2.treasuryOwes) ∧
    (0 ≤ (settleHouseBetWithPool env bal b result payoutNeeded allBets).2.ownDraw) ∧
    ((settleHouseBetWithPool env bal b result payoutNeeded allBets).2.ownDraw +
      (((settleHouseBetWithPool env bal b result payoutNeeded allBets).2.loserDraws).map
        (fun d => d.2)).sum =
      (settleHouseBetWithPool env bal b result payoutNeeded allBets).2.amountPaid) ∧
    (∀ j, 0 ≤ (settleHouseBetWithPool env bal b result payoutNeeded allBets).1 j ∧
      (settleHouseBetWithPool env bal b result payoutNeeded allBets).1 j ≤ bal j) ∧
    (∀ d ∈ (settleHouseBetWithPool env bal b result payoutNeeded allBets).2.loserDraws,
      ∃ p ∈ allBets, p.1.id = d.1 ∧ p.2 = HouseBetResult.LOSS ∧ d.1 ≠ b.id ∧ 0 < d.2) ∧
    ((0 < payoutNeeded ∧ b.hasUserAddress = true ∧ b.hasWallet = true ∧
        txFeePerPayout < bal b.id ∧ env b.id = true) →
      (settleHouseBetWithPool env bal b result payoutNeeded allBets).2.ownDraw =
        min (bal b.id - txFeePerPayout) payoutNeeded) := by
  have HOD := ownWalletDraw_spec env bal b payoutNeeded hneed hbal
  by_cases hif : 0 < payoutNeeded ∧ b.hasUserAddress = true
  · have heq : settleHouseBetWithPool env bal b result payoutNeeded allBets =
        ((if 0 < (ownWalletDraw env bal b payoutNeeded).2.1 then
            drawFromLosers env b.id allBets (ownWalletDraw env bal b payoutNeeded).1
              (ownWalletDraw env bal b payoutNeeded).2.1
          else ((ownWalletDraw env bal b payoutNeeded).1,
            (ownWalletDraw env bal b payoutNeeded).2.1, [])).1,
          { betId := b.id, status := HouseBetStatus.SETTLED, result := result,
            amountPaid := payoutNeeded -
              (if 0 < (ownWalletDraw env bal b payoutNeeded).2.1 then
                drawFromLosers env b.id allBets (ownWalletDraw env bal b payoutNeeded).1
                  (ownWalletDraw env bal b payoutNeeded).2.1
              else ((ownWalletDraw env bal b payoutNeeded).1,
                (ownWalletDraw env bal b payoutNeeded).2.1, [])).2.1,
            treasuryOwes :=
              (if 0 < (ownWalletDraw env bal b payoutNeeded).2.1 then
                drawFromLosers env b.id allBets (ownWalletDraw env bal b payoutNeeded).1
                  (ownWalletDraw env bal b payoutNeeded).2.1
              else ((ownWalletDraw env bal b payoutNeeded).1,
                (ownWalletDraw env bal b payoutNeeded).2.1, [])).2.1,
            ownDraw := (ownWalletDraw env bal b payoutNeeded).2.2,
            loserDraws :=
              (if 0 < (ownWalletDraw env bal b payoutNeeded).2.1 then
                drawFromLosers env b.id allBets (ownWalletDraw env bal b payoutNeeded).1
                  (ownWalletDraw env bal b payoutNeeded).2.1
              else ((ownWalletDraw env bal b payoutNeeded).1,
                (ownWalletDraw env bal b payoutNeeded).2.1, [])).2.2 }) := by
      simp only [settleHouseBetWithPool]
      rw [if_pos hif]
    rw [heq]
    by_cases h2p : 0 < (ownWalletDraw env bal b payoutNeeded).2.1
    · have HD := drawFromLosers_spec env b.id allBets
        (ownWalletDraw env bal b payoutNeeded).1 (ownWalletDraw env bal b payoutNeeded).2.1
        (le_of_lt h2p)
      rw [if_pos h2p]
      dsimp only
      refine ⟨rfl, rfl, rfl, ?_, HD.1, HOD.1, ?_, ?_, ?_, ?_⟩
      · rw [if_pos hif]
        ring
      · have hsum := HD.2.2.2.1
        have hrem := HOD.2.2.1
        omega
      · intro j
        rcases HD.2.2.1 j with h | h
        · rw [h]
          exact (HOD.2.2.2.1 j)
        · have := (HOD.2.2.2.1 j)
          exact ⟨h.1, le_trans h.2 this.2⟩
      · exact HD.2.2.2.2.1
      · intro hcond
        exact HOD.2.2.2.2 ⟨hcond.2.2.1, hcond.2.2.2.1, hcond.2.2.2.2⟩
    · rw [if_neg h2p]
      dsimp only
      have hrem : (ownWalletDraw env bal b payoutNeeded).2.1 =
          payoutNeeded - (ownWalletDraw env bal b payoutNeeded).2.2 := HOD.2.2.1
      refine ⟨rfl, rfl, rfl, ?_, ?_, HOD.1, ?_, ?_, ?_, ?_⟩
      · rw [if_pos hif]
        ring
      · have := HOD.2.1
        omega
      · simp only [List.map_nil, List.sum_nil]
        have := HOD.2.1
        omega
      · intro j
        exact HOD.2.2.2.1 j
      · intro d hd
        simp at hd
      · intro hcond
        exact HOD.2.2.2.2 ⟨hcond.2.2.1, hcond.2.2.2.1, hcond.2.2.2.2⟩
  · have heq : settleHouseBetWithPool env bal b result payoutNeeded allBets =
        (bal, { betId := b.id, status := HouseBetStatus.SETTLED,
                result := result, amountPaid := 0, treasuryOwes := 0,
                ownDraw := 0, loserDraws := [] }) := by
      simp only [settleHouseBetWithPool]
      rw [if_neg hif]
    rw [heq]
    dsimp only
    refine ⟨rfl, rfl, rfl, ?_, le_refl _, le_refl _, ?_, ?_, ?_, ?_⟩
    · rw [if_neg hif]
      ring
    · simp
    · intro j
      exact ⟨hbal j, le_refl _⟩
    · intro d hd
      simp at hd
    · intro hcond
      exact absurd ⟨hcond.1, hcond.2.1⟩ hif

/-- Helper: invariants of the batch settlement loop, threading the shared
tracked-balance map through calls against a fixed batch list. -/
theorem runHouseBetBatch_spec (env : Nat → Bool) (allBets : List (HBet × HouseBetResult)) :
    ∀ (l : List (HBet × HouseBetResult)) (bal : Nat → ℤ),
    (∀ j, 0 ≤ bal j) → (∀ p ∈ l, 0 ≤ payoutNeededFor p.2 p.1) →
    (∀ j, 0 ≤ (runHouseBetBatch env allBets bal l).1 j ∧
      (runHouseBetBatch env allBets bal l).1 j ≤ bal j) ∧
    ((runHouseBetBatch env allBets bal l).2.length = l.length) ∧
    (∀ o ∈ (runHouseBetBatch env allBets bal l).2, o.status = HouseBetStatus.SETTLED) ∧
    (∀ q ∈ l.zip (runHouseBetBatch env allBets bal l).2,
      q.2.status = HouseBetStatus.SETTLED ∧ q.2.result = q.1.2 ∧ q.2.betId = q.1.1.id ∧
      q.2.amountPaid + q.2.treasuryOwes =
        (if 0 < payoutNeededFor q.1.2 q.1.1 ∧ q.1.1.hasUserAddress = true then
          payoutNeededFor q.1.2 q.1.1 else 0) ∧
      0 ≤ q.2.treasuryOwes ∧
      0 ≤ q.2.ownDraw ∧
      q.2.ownDraw + ((q.2.loserDraws.map (fun d => d.2)).sum) = q.2.amountPaid ∧
      (∀ d ∈ q.2.loserDraws, ∃ p ∈ allBets,
        p.1.id = d.1 ∧ p.2 = HouseBetResult.LOSS ∧ d.1 ≠ q.1.1.id ∧ 0 < d.2)) := by
  intro l
  induction l with
  | nil =>
    intro bal hbal _
    rw [show runHouseBetBatch env allBets bal [] = (bal, []) from by
      simp only [runHouseBetBatch]]
    exact ⟨fun j => ⟨hbal j, le_refl _⟩, rfl, by simp, by simp⟩
  | cons p rest ih =>
    intro bal hbal hneed
    have heq : runHouseBetBatch env allBets bal (p :: rest) =
        ((runHouseBetBatch env allBets
            (settleHouseBetWithPool env bal p.1 p.2 (payoutNeededFor p.2 p.1) allBets).1
            rest).1,
          (settleHouseBetWithPool env bal p.1 p.2 (payoutNeededFor p.2 p.1) allBets).2 ::
          (runHouseBetBatch env allBets
            (settleHouseBetWithPool env bal p.1 p.2 (payoutNeededFor p.2 p.1) allBets).1
            rest).2) := by
      simp only [runHouseBetBatch]
    have HS := settleHouseBetWithPool_spec env bal p.1 p.2 (payoutNeededFor p.2 p.1) allBets
      (hneed p (List.mem_cons_self _ _)) hbal
    have hbal1 : ∀ j, 0 ≤ (settleHouseBetWithPool env bal p.1 p.2
        (payoutNeededFor p.2 p.1) allBets).1 j :=
      fun j => (HS.2.2.2.2.2.2.2.1 j).1
    have IH := ih (settleHouseBetWithPool env bal p.1 p.2 (payoutNeededFor p.2 p.1) allBets).1
      hbal1 (fun x hx => hneed x (List.mem_cons_of_mem _ hx))
    rw [heq]
    dsimp only
    refine ⟨?_, ?_, ?_, ?_⟩
    · intro j
      have h1 := IH.1 j
      have h2 := (HS.2.2.2.2.2.2.2.1 j)
      exact ⟨h1.1, le_trans h1.2 h2.2⟩
    · simp [IH.2.1]
    · intro o ho
      rcases List.mem_cons.mp ho with rfl | ho'
      · exact HS.1
      · exact IH.2.2.1 o ho'
    · intro q hq
      rw [List.zip_cons_cons] at hq
      rcases List.mem_cons.mp hq with rfl | hq'
      · exact ⟨HS.1, HS.2.1, HS.2.2.1, HS.2.2.2.1, HS.2.2.2.2.1, HS.2.2.2.2.2.1,
          HS.2.2.2.2.2.2.1, HS.2.2.2.2.2.2.2.2.1⟩
      · exact IH.2.2.2 q hq'

/-- C6: pooled house-bet settlement.  Single call: when a payout is needed
and the user has an address, funds come first from the bet's own wallet —
exactly `min(tracked balance - fee, payoutNeeded)` when that wallet holds
more than one fee and its send succeeds — then the remainder from wallets of
bets graded LOSS in the same batch only (never its own, each draw positive),
with the amount paid plus the recorded outstanding treasury obligation
always equal to the payout needed (nothing silently dropped), and no tracked
wallet balance ever drawn below zero or beyond its snapshot.  Batch: every
graded bet of the batch is marked SETTLED, the same conservation holds
pairwise, and the shared balance map never goes negative nor above its
snapshot. -/
theorem settleHouseBets_pooling_law :
    (∀ (env : Nat → Bool) (bal : Nat → ℤ) (b : HBet) (result : HouseBetResult)
        (payoutNeeded : ℤ) (allBets : List (HBet × HouseBetResult)),
      0 ≤ payoutNeeded → (∀ j, 0 ≤ bal j) →
      ((settleHouseBetWithPool env bal b result payoutNeeded allBets).2.status =
        HouseBetStatus.SETTLED) ∧
      ((settleHouseBetWithPool env bal b result payoutNeeded allBets).2.amountPaid +
        (settleHouseBetWithPool env bal b result payoutNeeded allBets).2.treasuryOwes =
        (if 0 < payoutNeeded ∧ b.hasUserAddress = true then payoutNeeded else 0)) ∧
      (0 ≤ (settleHouseBetWithPool env bal b result payoutNeeded allBets).2.treasuryOwes) ∧
      ((settleHouseBetWithPool env bal b result payoutNeeded allBets).2.ownDraw +
        (((settleHouseBetWithPool env bal b result payoutNeeded allBets).2.loserDraws).map
          (fun d => d.2)).sum =
        (settleHouseBetWithPool env bal b result payoutNeeded allBets).2.amountPaid) ∧
      (∀ j, 0 ≤ (settleHouseBetWithPool env bal b result payoutNeeded allBets).1 j ∧
        (settleHouseBetWithPool env bal b result payoutNeeded allBets).1 j ≤ bal j) ∧
      (∀ d ∈ (settleHouseBetWithPool env bal b result payoutNeeded allBets).2.loserDraws,
        ∃ p ∈ allBets, p.1.id = d.1 ∧ p.2 = HouseBetResult.LOSS ∧ d.1 ≠ b.id ∧ 0 < d.2) ∧
      ((0 < payoutNeeded ∧ b.hasUserAddress = true ∧ b.hasWallet = true ∧
          txFeePerPayout < bal b.id ∧ env b.id = true) →
        (settleHouseBetWithPool env bal b result payoutNeeded allBets).2.ownDraw =
          min (bal b.id - txFeePerPayout) payoutNeeded)) ∧
    (∀ (env : Nat → Bool) (bal : Nat → ℤ) (bets : List (HBet × HouseBetResult)),
      (∀ j, 0 ≤ bal j) → (∀ p ∈ bets, 0 ≤ payoutNeededFor p.2 p.1) →
      (∀ o ∈ (settleHouseBetsBatch env bal bets).2, o.status = HouseBetStatus.SETTLED) ∧
      ((settleHouseBetsBatch env bal bets).2.length = bets.length) ∧
      (∀ q ∈ bets.zip (settleHouseBetsBatch env bal bets).2,
        q.2.amountPaid + q.2.treasuryOwes =
          (if 0 < payoutNeededFor q.1.2 q.1.1 ∧ q.1.1.hasUserAddress = true then
            payoutNeededFor q.1.2 q.1.1 else 0) ∧
        0 ≤ q.2.treasuryOwes ∧
        (∀ d ∈ q.2.loserDraws, ∃ p ∈ bets,
          p.1.id = d.1 ∧ p.2 = HouseBetResult.LOSS ∧ d.1 ≠ q.1.1.id ∧ 0 < d.2)) ∧
      (∀ j, 0 ≤ (settleHouseBetsBatch env bal bets).1 j ∧
        (settleHouseBetsBatch env bal bets).1 j ≤ bal j)) := by
  constructor
  · intro env bal b result payoutNeeded allBets hneed hbal
    have HS := settleHouseBetWithPool_spec env bal b result payoutNeeded allBets hneed hbal
    exact ⟨HS.1, HS.2.2.2.1, HS.2.2.2.2.1, HS.2.2.2.2.2.2.1, HS.2.2.2.2.2.2.2.1,
      HS.2.2.2.2.2.2.2.2.1, HS.2.2.2.2.2.2.2.2.2⟩
  · intro env bal bets hbal hneed
    have HB := runHouseBetBatch_spec env bets bets bal hbal hneed
    refine ⟨HB.2.2.1, HB.2.1, ?_, HB.1⟩
    intro q hq
    have h := HB.2.2.2 q hq
    exact ⟨h.2.2.2.1, h.2.2.2.2.1, h.2.2.2.2.2.2.2⟩

/-- C6 witness: the spec's pooling scenario at lamport scale — a WIN bet
(id 1) owed 150000000 whose own wallet holds 10000, and a LOSS bet (id 2)
whose wallet holds 200000000: settlement draws 5000 from the winner's own
wallet, exactly the 149995000 remainder from the loser's wallet, pays the
full 150000000 with no outstanding shortfall, and marks both SETTLED. -/
theorem settleHouseBets_pooling_law_witness :
    ((settleHouseBetsBatch (fun _ => true)
        (fun j => if j = 1 then 10000 else if j = 2 then 200000000 else 0)
        [(⟨1, 50000000, 150000000, true, true⟩, HouseBetResult.WIN),
          (⟨2, 200000000, 0, true, true⟩, HouseBetResult.LOSS)]).2.map
      (fun o => (o.betId, o.status, o.amountPaid, o.treasuryOwes, o.ownDraw,
        o.loserDraws))) =
      [(1, HouseBetStatus.SETTLED, 150000000, 0, 5000, [(2, 149995000)]),
        (2, HouseBetStatus.SETTLED, 0, 0, 0, [])] ∧
    (∀ o ∈ (settleHouseBetsBatch (fun _ => true)
        (fun j => if j = 1 then 10000 else if j = 2 then 200000000 else 0)
        [(⟨1, 50000000, 150000000, true, true⟩, HouseBetResult.WIN),
          (⟨2, 200000000, 0, true, true⟩, HouseBetResult.LOSS)]).2,
      o.status = HouseBetStatus.SETTLED) := by
  constructor
  · rfl
  · exact (settleHouseBets_pooling_law.2 (fun _ => true)
      (fun j => if j = 1 then 10000 else if j = 2 then 200000000 else 0)
      [(⟨1, 50000000, 150000000, true, true⟩, HouseBetResult.WIN),
        (⟨2, 200000000, 0, true, true⟩, HouseBetResult.LOSS)]
      (by intro j; by_cases h1 : j = 1 <;> by_cases h2 : j = 2 <;> simp [h1, h2])
      (by decide)).1

/-- C6 counterexample: a WIN bet (id 3) needing a 300000-lamport payout
whose user has no payout address, in a batch with a funded LOSS wallet
(id 4 holding 400000000): `settleHouseBetWithPool` skips the entire
draw-and-record block — the bet is marked SETTLED with nothing paid, no
draw from any wallet, and no treasury obligation recorded, so the payout
needed is silently dropped even though batch funds were available. -/
theorem settleHouseBetWithPool_drops_addressless_payout :
    (settleHouseBetWithPool (fun _ => true)
        (fun j => if j = 3 then 500000 else if j = 4 then 400000000 else 0)
        ⟨3, 100000, 300000, true, false⟩ HouseBetResult.WIN 300000
        [(⟨3, 100000, 300000, true, false⟩, HouseBetResult.WIN),
          (⟨4, 400000000, 0, true, true⟩, HouseBetResult.LOSS)]).2 =
      { betId := 3, status := HouseBetStatus.SETTLED, result := HouseBetResult.WIN,
        amountPaid := 0, treasuryOwes := 0, ownDraw := 0, loserDraws := [] } ∧
    ((0 : ℤ) < 300000) ∧
    (settleHouseBetWithPool (fun _ => true)
        (fun j => if j = 3 then 500000 else if j = 4 then 400000000 else 0)
        ⟨3, 100000, 300000, true, false⟩ HouseBetResult.WIN 300000
        [(⟨3, 100000, 300000, true, false⟩, HouseBetResult.WIN),
          (⟨4, 400000000, 0, true, true⟩, HouseBetResult.LOSS)]).1 3 = 500000 ∧
    (settleHouseBetWithPool (fun _ => true)
        (fun j => if j = 3 then 500000 else if j = 4 then 400000000 else 0)
        ⟨3, 100000, 300000, true, false⟩ HouseBetResult.WIN 300000
        [(⟨3, 100000, 300000, true, false⟩, HouseBetResult.WIN),
          (⟨4, 400000000, 0, true, true⟩, HouseBetResult.LOSS)]).1 4 = 400000000 := by
  refine ⟨rfl, by norm_num, rfl, rfl⟩
